import Mathlib

/-!
# Verification of the claude-historian search & indexing engine

A shallow embedding, in Lean 4, of the search-and-indexing core of the
`claude-historian` repository (TypeScript), together with proofs and
refutations of the frozen specification claims C1-C10.

Conventions of the embedding:
* JavaScript strings are Lean `String`s; character-level operations
  (`toLowerCase`, `replace`, `split`, `includes`, ...) are modelled on
  `String.data` (`List Char`), which matches the sources' ASCII usage.
* JavaScript numbers used as relevance scores are modelled as `ℚ`
  (exact arithmetic; the sources only add integers and multiply by the
  decimal constants 1.5, 2.0, 2.2, 2.5, 2.8, 3.0).
* Timestamps are modelled as `Int` milliseconds since the epoch (the
  sources store ISO-8601 strings and always compare them through
  `new Date(...).getTime()`); a strictly monotone reparametrisation of
  the comparisons used by the code.
* Filesystem and parser I/O (`readdir`, `stat`, `ConversationParser`)
  are oracles in an explicit `Env`; a call that may reject is an
  `Except Unit` value.  The file `src/parser.ts` is not part of the
  snapshot, so the parser is an abstract oracle (see `Env`).
* `async`/`await` orchestration is cooperative and single-threaded
  (spec §5), so `Promise.allSettled` over a list is modelled as a
  left-to-right traversal whose rejected members are dropped.
-/

namespace ClaudeHistorian

/-! ## Generic string helpers (JavaScript string primitives) -/

/-- Infix test on lists: JS `String.prototype.includes` at the
character level. -/
def isInfixList [BEq α] (pat : List α) : List α → Bool
  | [] => pat.isPrefixOf ([] : List α)
  | c :: rest => pat.isPrefixOf (c :: rest) || isInfixList pat rest

/-- JS `s.includes(pat)`. -/
def jsIncludes (s pat : String) : Bool :=
  isInfixList pat.data s.data

/-- JS `s.startsWith(pat)`. -/
def jsStartsWith (s pat : String) : Bool :=
  pat.data.isPrefixOf s.data

/-- JS `s.endsWith(pat)`. -/
def jsEndsWith (s pat : String) : Bool :=
  pat.data.isSuffixOf s.data

/-- JS `s.toLowerCase()` (ASCII case folding, as used by the sources). -/
def jsToLower (s : String) : String :=
  ⟨s.data.map Char.toLower⟩

/-- The JS whitespace class `\s`, restricted to the characters
occurring in the logs. -/
def wsB (c : Char) : Bool := c.isWhitespace

/-- JS `s.trim()`. -/
def jsTrim (s : String) : String :=
  ⟨((s.data.dropWhile wsB).reverse.dropWhile wsB).reverse⟩

/-- JS `s.substring(0, n)` (code units; the embedded strings are ASCII). -/
def jsTake (s : String) (n : Nat) : String :=
  ⟨s.data.take n⟩

/-- JS `array.join(sep)`. -/
def jsJoin (sep : String) : List String → String
  | [] => ""
  | [x] => x
  | x :: rest => x ++ sep ++ jsJoin sep rest

/-- Worker for `jsSplitWs`.  The state is `some cur` while inside a
token whose reversed prefix is `cur`, and `none` while inside a
whitespace run (structural recursion on the character list, so that
the kernel can evaluate it). -/
def splitWsGo : Option (List Char) → List Char → List (List Char)
  | some cur, [] => [cur.reverse]
  | none, [] => [[]]
  | some cur, c :: rest =>
    if wsB c then cur.reverse :: splitWsGo none rest
    else splitWsGo (some (c :: cur)) rest
  | none, c :: rest =>
    if wsB c then splitWsGo none rest else splitWsGo (some [c]) rest

/-- JS `s.split(/\s+/)`: split on maximal whitespace runs, keeping the
(possibly empty) fragments at the boundaries — `" a".split(/\s+/)`
is `["", "a"]` and `"".split(/\s+/)` is `[""]`. -/
def jsSplitWs (s : String) : List String :=
  (splitWsGo (some []) s.data).map fun l => ⟨l⟩

/-- Worker for `jsSplitClass`: the analogue of `splitWsGo` for an
arbitrary one-character separator class. -/
def splitClassGo (sep : Char → Bool) :
    Option (List Char) → List Char → List (List Char)
  | some cur, [] => [cur.reverse]
  | none, [] => [[]]
  | some cur, c :: rest =>
    if sep c then cur.reverse :: splitClassGo sep none rest
    else splitClassGo sep (some (c :: cur)) rest
  | none, c :: rest =>
    if sep c then splitClassGo sep none rest
    else splitClassGo sep (some [c]) rest

/-- JS `s.split(re)` for a character-class regex of the shape
`[...]+`: split on maximal runs of class characters, keeping the
(possibly empty) fragments at the boundaries. -/
def jsSplitClass (sep : Char → Bool) (s : String) : List String :=
  (splitClassGo sep (some []) s.data).map fun l => ⟨l⟩

/-- Worker for `jsSplitChar`. -/
def splitCharAux (sep : Char) : List Char → List Char → List (List Char)
  | cur, [] => [cur.reverse]
  | cur, c :: rest =>
    if c = sep then cur.reverse :: splitCharAux sep [] rest
    else splitCharAux sep (c :: cur) rest

/-- JS `s.split(sep)` for a one-character separator (no run merging). -/
def jsSplitChar (sep : Char) (s : String) : List String :=
  (splitCharAux sep [] s.data).map fun l => ⟨l⟩

/-- JS `.split(sep).pop() || ''` — the last fragment. -/
def lastSegment (sep : Char) (s : String) : String :=
  ((jsSplitChar sep s).getLast?).getD ""

/-- Worker for `squashDigits`: the flag records whether the previous
character was a digit (i.e. we are inside a run already replaced). -/
def squashDigitsAux : Bool → List Char → List Char
  | _, [] => []
  | prevDigit, c :: rest =>
    if c.isDigit then
      (if prevDigit then [] else ['N']) ++ squashDigitsAux true rest
    else c :: squashDigitsAux false rest

/-- JS `s.replace(/\d+/g, 'N')`: collapse each digit run to `'N'`. -/
def squashDigits (l : List Char) : List Char :=
  squashDigitsAux false l

/-- Worker for `squashWs`: the flag records whether the previous
character was whitespace. -/
def squashWsAux : Bool → List Char → List Char
  | _, [] => []
  | prevWs, c :: rest =>
    if wsB c then
      (if prevWs then [] else [' ']) ++ squashWsAux true rest
    else c :: squashWsAux false rest

/-- JS `s.replace(/\s+/g, ' ')`: collapse each whitespace run to a
single blank. -/
def squashWs (l : List Char) : List Char :=
  squashWsAux false l

/-- JS `s.replace(from, to)` for one-character patterns applied
globally (`/x/g`). -/
def mapChars (f : Char → Char) (s : String) : String :=
  ⟨s.data.map f⟩

/-- UTF-8 byte size of a string — JS `Buffer.byteLength(s, 'utf8')`. -/
def utf8Len (s : String) : Nat :=
  s.data.foldl (fun n c => n + c.utf8Size) 0

/-! ## Data model (`src/types.ts`)

`ClaudeMessage.message.content` is either a plain string, an array of
typed content blocks, or something else entirely (`null`, a number, a
missing field...); the embedding closes the heterogeneous JSON shapes
into `MessageContent`. -/

/-- One element of a structured `content` array.  `other` stands for
any block whose `type` tag is none of the three recognized ones. -/
inductive ContentItem
  | text (t : String)
  | toolUse (name : String)
  | toolResult
  | other
deriving DecidableEq

/-- The `content` field of a raw log message.  `null` stands for any
value that is neither a string nor an array. -/
inductive MessageContent
  | str (s : String)
  | arr (items : List ContentItem)
  | null
deriving DecidableEq

/-- The `message` sub-object of a raw log line. -/
structure MessageBody where
  content : MessageContent
deriving DecidableEq

/-- The empty object `{}` used as the fallback in
`extractContentFromMessage(message.message || {})`. -/
def emptyBody : MessageBody := ⟨.null⟩

/-- A raw decoded log line as the relevance scorers see it.  Fields are
optional because the scorers must tolerate malformed lines; a `none`
timestamp models a missing or unparseable date (`new Date` comparisons
against `NaN` are false). -/
structure RawMessage where
  message : Option MessageBody
  type : Option String
  cwd : Option String
  timestamp : Option Int
deriving DecidableEq

/-- `CompactMessage.type` (`src/types.ts`). -/
inductive MsgType
  | user
  | assistant
  | toolUse
  | toolResult
deriving DecidableEq

/-- The string the source stores in the `type` field (used inside
content signatures via template interpolation). -/
def MsgType.str : MsgType → String
  | .user => "user"
  | .assistant => "assistant"
  | .toolUse => "tool_use"
  | .toolResult => "tool_result"

/-- `CompactMessage.context` (`src/types.ts`). -/
structure MessageContext where
  filesReferenced : Option (List String)
  toolsUsed : Option (List String)
  errorPatterns : Option (List String)
deriving DecidableEq

/-- `CompactMessage` (`src/types.ts`); timestamps as epoch
milliseconds, relevance scores as `ℚ`. -/
structure CompactMessage where
  uuid : String
  timestamp : Int
  type : MsgType
  content : String
  sessionId : String
  projectPath : Option String
  relevanceScore : Option ℚ
  context : Option MessageContext
deriving DecidableEq

/-- `{ ...msg, finalScore: score }` — a candidate carrying its boosted
score (`selectTopRelevantResults`, `src/search.ts`). -/
structure ScoredMessage extends CompactMessage where
  finalScore : ℚ
deriving DecidableEq

/-- `msg.context?.filesReferenced || []`-style access. -/
def CompactMessage.files (m : CompactMessage) : List String :=
  (m.context.bind (·.filesReferenced)).getD []

/-- `msg.context?.toolsUsed || []`-style access. -/
def CompactMessage.tools (m : CompactMessage) : List String :=
  (m.context.bind (·.toolsUsed)).getD []

/-- `msg.context?.errorPatterns || []`-style access. -/
def CompactMessage.errors (m : CompactMessage) : List String :=
  (m.context.bind (·.errorPatterns)).getD []

/-- `msg.relevanceScore || 0`. -/
def CompactMessage.score (m : CompactMessage) : ℚ :=
  m.relevanceScore.getD 0

namespace Utils

/-! ## `src/utils.ts` -/

/-- `decodeProjectPath` (`src/utils.ts:9`): Claude encodes paths by
replacing slashes with dashes; decoding replaces every dash of the
encoded name by a slash. -/
def decodeProjectPath (encodedPath : String) : String :=
  mapChars (fun c => if c = '-' then '/' else c) encodedPath

/-- `encodeProjectPath` (`src/utils.ts:14`):
`path.replace(/\//g, '-')`. -/
def encodeProjectPath (path : String) : String :=
  mapChars (fun c => if c = '/' then '-' else c) path

/-- Rendering of one content block inside
`extractContentFromMessage` (`src/utils.ts:60-64`). -/
def renderItem : ContentItem → String
  | .text t => t
  | .toolUse name => "[Tool: " ++ name ++ "]"
  | .toolResult => "[Tool Result]"
  | .other => ""

/-- `extractContentFromMessage` (`src/utils.ts:53`). -/
def extractContentFromMessage (message : MessageBody) : String :=
  match message.content with
  | .str s => s
  | .arr items => jsTrim (jsJoin " " (items.map renderItem))
  | .null => ""

/-- `calculateRelevanceScore` (`src/utils.ts:73`).  The running
`score` accumulator is written as one left-to-right sum. -/
def calculateRelevanceScore (message : RawMessage) (query : String)
    (projectPath : Option String) : ℚ :=
  let content := extractContentFromMessage (message.message.getD emptyBody)
  let lowerQuery := jsToLower query
  let lowerContent := jsToLower content
  let queryWords := jsSplitWs lowerQuery
  let contentWords := jsSplitWs lowerContent
  let matchingWords := queryWords.filter fun word =>
    contentWords.any fun cWord => jsIncludes cWord word
  (0 : ℚ)
    + (if jsIncludes lowerContent lowerQuery then 10 else 0)
    + (matchingWords.length : ℚ) * 2
    + (if message.type = some "tool_use" ∨ message.type = some "tool_result"
        then 5 else 0)
    + (if jsIncludes content "src/" || jsIncludes content ".ts"
          || jsIncludes content ".js" then 3 else 0)
    + (if (match projectPath, message.cwd with
            | some pp, some cwd => jsIncludes cwd pp
            | _, _ => false) then 5 else 0)

end Utils

namespace SearchEngine

/-- `new Date(timestamp) > new Date(Date.now() - 7 * 24 * 60 * 60 * 1000)`
(`src/search.ts:648`); a missing or unparseable timestamp compares
false. -/
def isRecent (now : Int) : Option Int → Bool
  | some ts => now - 7 * 24 * 60 * 60 * 1000 < ts
  | none => false

/-- `HistorySearchEngine.calculateRelevanceScore` (`src/search.ts:609`),
the engine-private variant of the scorer.  `now` is `Date.now()`; the
source's `try/catch` wrapper corresponds to this definition being
total.  The running `score` accumulator is written as one
left-to-right sum. -/
def calculateRelevanceScore (message : RawMessage) (query : String)
    (now : Int) : ℚ :=
  let content := Utils.extractContentFromMessage (message.message.getD emptyBody)
  if content = "" then 0
  else
    let lowerQuery := jsToLower query
    let lowerContent := jsToLower content
    let queryWords := (jsSplitWs lowerQuery).filter fun w => 2 < w.length
    let contentWords := jsSplitWs lowerContent
    let matched := queryWords.filter fun word =>
      contentWords.any fun cWord => jsIncludes cWord word
    (0 : ℚ)
      + (if jsIncludes lowerContent lowerQuery then 15 else 0)
      + (matched.length : ℚ) * 3
      + (if message.type = some "tool_use" ∨ message.type = some "tool_result"
          then 8 else 0)
      + (if jsIncludes lowerContent "tool_use" || jsIncludes lowerContent "called the"
          then 6 else 0)
      + (if jsIncludes content ".ts" || jsIncludes content ".js"
            || jsIncludes content "src/" then 4 else 0)
      + (if jsIncludes content "package.json" || jsIncludes content ".md"
          then 3 else 0)
      + (if jsIncludes lowerContent "error" || jsIncludes lowerContent "fix"
          then 4 else 0)
      + (if jsIncludes lowerContent "solution" || jsIncludes lowerContent "resolved"
          then 3 else 0)
      + (if message.type = some "assistant" ∧ 200 < content.length then 2 else 0)
      + (if isRecent now message.timestamp then 1 else 0)

end SearchEngine

namespace SearchEngine

/-! ## Query analysis (`src/search.ts:54-80, 554-582`) -/

/-- Result of `classifyQueryType` (`src/search.ts:554`). -/
inductive QueryType
  | error
  | implementation
  | analysis
  | general
deriving DecidableEq

/-- `classifyQueryType` (`src/search.ts:554`). -/
def classifyQueryType (query : String) : QueryType :=
  let lowerQuery := jsToLower query
  if jsIncludes lowerQuery "error" || jsIncludes lowerQuery "bug"
      || jsIncludes lowerQuery "fix" || jsIncludes lowerQuery "issue" then
    .error
  else if jsIncludes lowerQuery "implement" || jsIncludes lowerQuery "create"
      || jsIncludes lowerQuery "build" || jsIncludes lowerQuery "add" then
    .implementation
  else if jsIncludes lowerQuery "how" || jsIncludes lowerQuery "why"
      || jsIncludes lowerQuery "analyze" || jsIncludes lowerQuery "understand" then
    .analysis
  else
    .general

/-- `analyzeQueryIntent(...).urgency` values. -/
inductive Urgency
  | high
  | medium
deriving DecidableEq

/-- `analyzeQueryIntent(...).scope` values. -/
inductive Scope
  | broad
  | focused
deriving DecidableEq

/-- The keys of the `boosts` record built by `getSemanticBoosts`
(`src/search.ts:68`). -/
inductive BoostType
  | errorResolution
  | implementation
  | optimization
  | solutions
  | fileOperations
  | toolUsage
deriving DecidableEq

/-- `getSemanticBoosts` (`src/search.ts:68`); the argument is the
already-lowercased query, and the list order is the JS object
insertion order. -/
def getSemanticBoosts (query : String) : List (BoostType × ℚ) :=
  (if jsIncludes query "error" then [(BoostType.errorResolution, 3)] else [])
    ++ (if jsIncludes query "implement"
        then [(BoostType.implementation, mkRat 5 2)] else [])
    ++ (if jsIncludes query "optimize"
        then [(BoostType.optimization, 2)] else [])
    ++ (if jsIncludes query "fix" then [(BoostType.solutions, mkRat 14 5)] else [])
    ++ (if jsIncludes query "file" then [(BoostType.fileOperations, 2)] else [])
    ++ (if jsIncludes query "tool" then [(BoostType.toolUsage, mkRat 11 5)] else [])

/-- The analysis object returned by `analyzeQueryIntent`
(`src/search.ts:54`). -/
structure QueryAnalysis where
  type : QueryType
  urgency : Urgency
  scope : Scope
  expectsCode : Bool
  expectsSolution : Bool
  keywords : List String
  semanticBoosts : List (BoostType × ℚ)
deriving DecidableEq

/-- `analyzeQueryIntent` (`src/search.ts:54`). -/
def analyzeQueryIntent (query : String) : QueryAnalysis :=
  let lowerQuery := jsToLower query
  { type := classifyQueryType query
    urgency :=
      if jsIncludes lowerQuery "error" || jsIncludes lowerQuery "failed"
      then .high else .medium
    scope :=
      if jsIncludes lowerQuery "project" || jsIncludes lowerQuery "all"
      then .broad else .focused
    expectsCode := jsIncludes lowerQuery "function"
      || jsIncludes lowerQuery "implement" || jsIncludes lowerQuery "code"
    expectsSolution := jsIncludes lowerQuery "how"
      || jsIncludes lowerQuery "fix" || jsIncludes lowerQuery "solve"
    keywords := (jsSplitWs lowerQuery).filter fun w => 2 < w.length
    semanticBoosts := getSemanticBoosts lowerQuery }

/-- `messageMatchesSemanticType` (`src/search.ts:309`).  The
`implementation` branch reads `context?.codeSnippets?.length`, a field
that does not exist on `CompactMessage.context` (`src/types.ts`), so
that disjunct is always falsy. -/
def messageMatchesSemanticType (message : CompactMessage) (t : BoostType) : Bool :=
  let content := jsToLower message.content
  match t with
  | .errorResolution => jsIncludes content "error" || jsIncludes content "exception"
      || 0 < message.errors.length
  | .implementation => jsIncludes content "function" || jsIncludes content "implement"
      || false
  | .optimization => jsIncludes content "optimize" || jsIncludes content "performance"
      || jsIncludes content "faster"
  | .solutions => jsIncludes content "solution" || jsIncludes content "fix"
      || jsIncludes content "resolve"
  | .fileOperations => 0 < message.files.length
  | .toolUsage => 0 < message.tools.length

/-- `matchesQueryIntent` (`src/search.ts:248`).  As above, the
`codeSnippets` disjunct of the `implementation` branch is always
falsy. -/
def matchesQueryIntent (message : CompactMessage) (analysis : QueryAnalysis) : Bool :=
  let content := jsToLower message.content
  match analysis.type with
  | .error => jsIncludes content "error" || jsIncludes content "fix"
      || jsIncludes content "solution" || 0 < message.errors.length
  | .implementation => jsIncludes content "implement" || jsIncludes content "create"
      || jsIncludes content "function" || false
  | .analysis => jsIncludes content "analyze" || jsIncludes content "understand"
      || jsIncludes content "explain"
      || (message.type = .assistant && 100 < content.length)
  | .general => 0 < message.tools.length
      || (message.type = .assistant && 80 < content.length)

/-- The noise-pattern list of `isHighlyRelevant` (`src/search.ts:225`). -/
def noisePatterns : List String :=
  ["this session is being continued",
   "caveat:",
   "command-name>",
   "local-command-stdout",
   "system-reminder",
   "command-message>",
   "much better! now i can see",
   "package.js",
   "export interface"]

/-- `isHighlyRelevant` (`src/search.ts:221`). -/
def isHighlyRelevant (message : CompactMessage) (_query : String)
    (analysis : QueryAnalysis) : Bool :=
  let content := jsToLower message.content
  if noisePatterns.any (fun p => jsIncludes content p) || content.length < 40 then
    false
  else if message.score < 1 then
    false
  else
    matchesQueryIntent message analysis

/-- The plain-string patterns of `isLowValueContent`
(`src/search.ts:1232`). -/
def lowValueStringPatterns : List String :=
  ["local-command-stdout>(no content)",
   "command-name>/doctor",
   "system-reminder>",
   "much better! now i can see"]

/-- The anchored alternation `(ok|yes|no|sure|thanks)` with an optional
final dot (`src/search.ts:1241`). -/
def isShortAck (s : String) : Bool :=
  ["ok", "yes", "no", "sure", "thanks"].any fun w => s = w || s = w ++ "."

/-- A string that is `tag` followed only by whitespace (the anchored
`error:`/`warning:` patterns of `src/search.ts:1242-1243`). -/
def isBareTag (tag : String) (s : String) : Bool :=
  jsStartsWith s tag && (s.data.drop tag.data.length).all wsB

/-- `isLowValueContent` (`src/search.ts:1232`). -/
def isLowValueContent (content : String) : Bool :=
  let lowerContent := jsToLower content
  (lowValueStringPatterns.any (fun p => jsIncludes lowerContent p)
      || isShortAck lowerContent
      || isBareTag "error:" lowerContent
      || isBareTag "warning:" lowerContent)
    || (jsTrim content).length < 20

/-! ## Deduplication (`src/search.ts:333-367`) -/

/-- The two quote characters removed by the signature normalization. -/
def quoteChars : List Char := ['"', Char.ofNat 39]

/-- `createIntelligentSignature` (`src/search.ts:354`): message type,
sorted tool list, file-reference flag, and the normalized 80-character
content prefix, joined by colons. -/
def createIntelligentSignature (message : CompactMessage) : String :=
  let contentHash : String :=
    jsTake ⟨squashWs ((squashDigits (jsToLower message.content).data).filter
      fun c => !quoteChars.contains c)⟩ 80
  let tools := jsJoin "|" (List.insertionSort (fun a b : String => a ≤ b) message.tools)
  let files := if 0 < message.files.length then "files" else "nofiles"
  message.type.str ++ ":" ++ tools ++ ":" ++ files ++ ":" ++ contentHash

/-- Signature of a scored candidate. -/
def sigOf (m : ScoredMessage) : String :=
  createIntelligentSignature m.toCompactMessage

/-- One step of the `seen` map construction inside
`intelligentDeduplicate` (`src/search.ts:333`): a JS `Map` is an
insertion-ordered association list; `set` on an existing key replaces
the value in place. -/
def dedupInsert (seen : List (String × ScoredMessage)) (message : ScoredMessage) :
    List (String × ScoredMessage) :=
  let signature := sigOf message
  if seen.any fun p => p.1 = signature then
    seen.map fun p =>
      if p.1 = signature ∧ p.2.finalScore < message.finalScore
      then (p.1, message) else p
  else
    seen ++ [(signature, message)]

/-- `intelligentDeduplicate` (`src/search.ts:333`). -/
def intelligentDeduplicate (messages : List ScoredMessage) : List ScoredMessage :=
  (messages.foldl dedupInsert []).map Prod.snd

/-! ## Scoring, boosting and final ordering (`src/search.ts:272-307`) -/

/-- The boost-application fold of `selectTopRelevantResults`
(`src/search.ts:283`): `Object.entries(analysis.semanticBoosts)` in
insertion order, multiplying the score for every matching type. -/
def applyBoosts (message : CompactMessage) (boosts : List (BoostType × ℚ))
    (base : ℚ) : ℚ :=
  boosts.foldl
    (fun s tb => if messageMatchesSemanticType message tb.1 then s * tb.2 else s)
    base

/-- The comparator of the final sort (`src/search.ts:301-302`):
descending by `finalScore`.  JS `Array.prototype.sort` is stable, so
the stable `List.insertionSort` along this relation is its model. -/
def scoreGe (a b : ScoredMessage) : Prop :=
  b.finalScore ≤ a.finalScore

instance : DecidableRel scoreGe := fun a b =>
  inferInstanceAs (Decidable (b.finalScore ≤ a.finalScore))

instance : IsTotal ScoredMessage scoreGe :=
  ⟨fun a b => le_total b.finalScore a.finalScore⟩

instance : IsTrans ScoredMessage scoreGe :=
  ⟨fun _ _ _ h1 h2 => le_trans h2 h1⟩

/-- `selectTopRelevantResults` (`src/search.ts:272`).  `now` is
`Date.now()`; the recency test `hoursDiff < 24` is written on the
millisecond difference (`(now - ts) / 3600000 < 24  ↔  now - ts <
86400000`). -/
def selectTopRelevantResults (candidates : List CompactMessage) (_query : String)
    (analysis : QueryAnalysis) (now : Int) (limit : Nat) : List ScoredMessage :=
  let scoredCandidates := candidates.map fun msg =>
    let score := applyBoosts msg analysis.semanticBoosts msg.score
    let score :=
      if analysis.urgency = .high then
        (if now - msg.timestamp < 24 * 60 * 60 * 1000
         then score * mkRat 3 2 else score)
      else score
    ({ toCompactMessage := msg, finalScore := score } : ScoredMessage)
  let sorted := List.insertionSort scoreGe scoredCandidates
  (intelligentDeduplicate sorted).take limit

/-- The quality gate of `performOptimizedSearch` (`src/search.ts:129`):
relevance at least 1.5, content at least 40 characters, not
low-value. -/
def qualityGate (msg : ScoredMessage) : Bool :=
  (mkRat 3 2 ≤ msg.toCompactMessage.score)
    && 40 ≤ msg.content.length
    && !isLowValueContent msg.content

end SearchEngine

namespace SearchEngine

/-! ## Lemmas about `intelligentDeduplicate` -/

/-- Invariant of the `seen` map while `intelligentDeduplicate` folds
over its input: keys are pairwise distinct; every entry stores a
processed message under its own signature, holding the maximal
`finalScore` of its signature class; and every processed message's
signature is represented. -/
def DedupInv (processed : List ScoredMessage)
    (seen : List (String × ScoredMessage)) : Prop :=
  ((seen.map Prod.fst).Pairwise (· ≠ ·))
    ∧ (∀ p ∈ seen, p.1 = sigOf p.2 ∧ p.2 ∈ processed
        ∧ ∀ m ∈ processed, sigOf m = p.1 → m.finalScore ≤ p.2.finalScore)
    ∧ (∀ m ∈ processed, ∃ p ∈ seen, p.1 = sigOf m)

end SearchEngine

/-- Concrete candidate for the C7 witness (the lower-scoring duplicate
of a tool-result content that appears twice in one file). -/
def c7low : ScoredMessage :=
  { uuid := "u1", timestamp := 0, type := .assistant,
    content := "the same tool result content appears twice in one file",
    sessionId := "s", projectPath := none, relevanceScore := some 1,
    context := none, finalScore := 1 }

/-- Concrete candidate for the C7 witness (the higher-scoring
duplicate: same content, hence same signature). -/
def c7high : ScoredMessage :=
  { uuid := "u2", timestamp := 0, type := .assistant,
    content := "the same tool result content appears twice in one file",
    sessionId := "s", projectPath := none, relevanceScore := some 2,
    context := none, finalScore := 2 }

/-! ## The I/O environment

The engine's external collaborators (spec §6): directory listing, stat,
file listing, and the line-stream parser.  An `Except Unit` result
models a rejected promise. -/

/-- One observable filesystem access performed by the search path. -/
inductive Access
  | listProjects
  | statEntry (entry : String)
  | listFiles (dir : String)
  | readFile (dir file : String)
deriving DecidableEq

/-- `true` for accesses that touch project contents (session-file
listing or reading) rather than the root project directory. -/
def Access.isFileAccess : Access → Bool
  | .listFiles _ => true
  | .readFile _ _ => true
  | _ => false

/-- The oracle environment.

`parseJsonlFile` is `ConversationParser.parseJsonlFile(projectDir,
file, query?, timeFilter?)`.  Modelled from the spec: `src/parser.ts`
is not part of the snapshot; per spec §3 and §4.1 the parser decodes
the session file into `CompactMessage`s whose relevance score is
assigned per query, so the oracle receives the query and may return
different (differently-scored) batches for different queries. -/
structure Env where
  readdirRoot : Except Unit (List String)
  statIsDir : String → Except Unit Bool
  readdirProject : String → Except Unit (List String)
  parseJsonlFile : String → String → Option String → (Int → Bool) →
    Except Unit (List CompactMessage)
  now : Int
  startOfToday : Int
  startOfYesterday : Int
  weekCutoff : Int
  monthCutoff : Int

namespace Utils

/-- `getTimeRangeFilter` (`src/utils.ts:118`).  The calendar
arithmetic on `Date` objects (`setHours`, `setDate`, `setMonth`) is
abstracted into the cutoff instants carried by the environment. -/
def getTimeRangeFilter (env : Env) : Option String → (Int → Bool)
  | none => fun _ => true
  | some timeframe =>
    let lower := jsToLower timeframe
    if lower = "today" then fun ts => decide (env.startOfToday ≤ ts)
    else if lower = "yesterday" then fun ts => decide (env.startOfYesterday ≤ ts)
    else if lower = "week" ∨ lower = "last-week" then
      fun ts => decide (env.weekCutoff ≤ ts)
    else if lower = "month" ∨ lower = "last-month" then
      fun ts => decide (env.monthCutoff ≤ ts)
    else fun _ => true

/-- The `stat` loop inside `findProjectDirectories`
(`src/utils.ts:25-31`): keep the entries that are directories; a
`stat` failure aborts the whole `try` block. -/
def statLoop (env : Env) : List String → Except Unit (List String) × List Access
  | [] => (.ok [], [])
  | e :: rest =>
    match env.statIsDir e with
    | .error u => (.error u, [.statEntry e])
    | .ok b =>
      let r := statLoop env rest
      (r.1.map fun tail => if b then e :: tail else tail, .statEntry e :: r.2)

/-- `findProjectDirectories` (`src/utils.ts:19`): any failure is caught
and yields the empty list. -/
def findProjectDirectories (env : Env) : List String × List Access :=
  match env.readdirRoot with
  | .error _ => ([], [.listProjects])
  | .ok entries =>
    let r := statLoop env entries
    (match r.1 with
     | .ok dirs => dirs
     | .error _ => [], .listProjects :: r.2)

/-- `findJsonlFiles` (`src/utils.ts:40`): list a project directory and
keep the `.jsonl` entries; any failure is caught and yields `[]`. -/
def findJsonlFiles (env : Env) (projectDir : String) : List String × List Access :=
  match env.readdirProject projectDir with
  | .error _ => ([], [.listFiles projectDir])
  | .ok entries =>
    (entries.filter fun f => jsEndsWith f ".jsonl", [.listFiles projectDir])

end Utils

namespace SearchEngine

/-! ## The message cache and `processJsonlFile` (`src/search.ts:418`) -/

/-- `HistorySearchEngine.messageCache`: a JS `Map` keyed by
`projectDir/file` — an insertion-ordered association list.  Note the
key does **not** mention the query. -/
abbrev Cache := List (String × List CompactMessage)

/-- `Map.get`/`Map.has`. -/
def cacheLookup (cache : Cache) (key : String) : Option (List CompactMessage) :=
  (cache.find? fun p => p.1 == key).map Prod.snd

/-- `Map.delete` (order of surviving entries preserved). -/
def cacheDelete (cache : Cache) (key : String) : Cache :=
  cache.filter fun p => !(p.1 == key)

/-- A JS average `sum / msgs.length`: `NaN` when the batch is empty
(`0 / 0`), finite otherwise; `inf` models the `Infinity` initial
accumulator of the eviction `reduce`. -/
inductive AvgVal
  | nan
  | fin (q : ℚ)
  | inf
deriving DecidableEq

/-- JS `<` on such values (`NaN` compares false with everything). -/
def AvgVal.ltB : AvgVal → AvgVal → Bool
  | .fin a, .fin b => a < b
  | .fin _, .inf => true
  | _, _ => false

/-- Average relevance score of a cached batch
(`src/search.ts:442`). -/
def batchAvg (msgs : List CompactMessage) : AvgVal :=
  match msgs with
  | [] => .nan
  | _ => .fin ((msgs.foldl (fun s m => s + m.score) 0) / (msgs.length : ℚ))

/-- The eviction `reduce` of `src/search.ts:440-446`: the key of the
entry with the least average score.  `min.avgScore || Infinity` treats
a falsy accumulator (`0` or `NaN`) as `Infinity`. -/
def leastValuableKey (cache : Cache) : String :=
  (cache.foldl
    (fun acc p =>
      let avg := batchAvg p.2
      let cur := match acc.2 with
        | .fin q => if q = 0 then AvgVal.inf else .fin q
        | .nan => .inf
        | .inf => .inf
      if avg.ltB cur then (p.1, avg) else acc)
    ("", AvgVal.inf)).1

/-- `processJsonlFile` (`src/search.ts:418`): check the cache first
(key = directory/file, no query!), otherwise parse and insert —
directly below capacity 500, else by evicting the least valuable entry
when the new batch holds a message scoring above 8. -/
def processJsonlFile (env : Env) (cache : Cache) (projectDir file query : String)
    (timeFilter : Int → Bool) :
    Except Unit (List CompactMessage) × Cache × List Access :=
  let cacheKey := projectDir ++ "/" ++ file
  match cacheLookup cache cacheKey with
  | some msgs => (.ok msgs, cache, [])
  | none =>
    match env.parseJsonlFile projectDir file (some query) timeFilter with
    | .error u => (.error u, cache, [.readFile projectDir file])
    | .ok messages =>
      let cache2 :=
        if cache.length < 500 then cache ++ [(cacheKey, messages)]
        else if messages.any (fun m => 8 < m.score) then
          let lk := leastValuableKey cache
          if lk ≠ "" then cacheDelete cache lk ++ [(cacheKey, messages)]
          else cache
        else cache
      (.ok messages, cache2, [.readFile projectDir file])

/-! ## Candidate gathering (`src/search.ts:147-219`) -/

/-- The file loop of `processProjectFocused` (`src/search.ts:201-213`):
per file, keep messages with score ≥ 1 matching the query intent, up
to `perFile` each; stop once `target` candidates are collected.  A
parser rejection aborts the loop via the surrounding `catch`, keeping
the messages already gathered. -/
def ppfLoop (env : Env) (projectDir query : String) (analysis : QueryAnalysis)
    (timeFilter : Int → Bool) (perFile target : Nat) :
    List String → Cache → List CompactMessage → List Access →
      List CompactMessage × Cache × List Access
  | [], cache, acc, log => (acc, cache, log)
  | file :: rest, cache, acc, log =>
    let step := processJsonlFile env cache projectDir file query timeFilter
    match step.1 with
    | .error _ => (acc, step.2.1, log ++ step.2.2)
    | .ok fileMessages =>
      let relevant := ((fileMessages.filter fun m => 1 ≤ m.score).filter
          fun m => matchesQueryIntent m analysis).take perFile
      let acc2 := acc ++ relevant
      if target ≤ acc2.length then (acc2, step.2.1, log ++ step.2.2)
      else ppfLoop env projectDir query analysis timeFilter perFile target
        rest step.2.1 acc2 (log ++ step.2.2)

/-- `processProjectFocused` (`src/search.ts:186`): at most 4 files per
project, `perFile = ceil(targetPerProject / priorityFiles.length)`. -/
def processProjectFocused (env : Env) (cache : Cache) (projectDir query : String)
    (analysis : QueryAnalysis) (timeFilter : Int → Bool) (targetPerProject : Nat) :
    List CompactMessage × Cache × List Access :=
  let fl := Utils.findJsonlFiles env projectDir
  let priorityFiles := fl.1.take (min 4 fl.1.length)
  let perFile :=
    if priorityFiles.length = 0 then 0
    else (targetPerProject + priorityFiles.length - 1) / priorityFiles.length
  ppfLoop env projectDir query analysis timeFilter perFile targetPerProject
    priorityFiles cache [] fl.2

/-- The `Promise.allSettled` fan-out of `gatherRelevantCandidates`
(`src/search.ts:157-168`): every project is processed (all promises
settle before aggregation); the cooperative single-threaded model
threads the shared cache left to right. -/
def gatherLoop (env : Env) (query : String) (analysis : QueryAnalysis)
    (timeFilter : Int → Bool) (perProject : Nat) :
    List String → Cache → List (List CompactMessage) → List Access →
      List (List CompactMessage) × Cache × List Access
  | [], cache, results, log => (results, cache, log)
  | dir :: rest, cache, results, log =>
    let r := processProjectFocused env cache dir query analysis timeFilter perProject
    gatherLoop env query analysis timeFilter perProject rest r.2.1
      (results ++ [r.1]) (log ++ r.2.2)

/-- The aggregation loop of `gatherRelevantCandidates`
(`src/search.ts:171-181`): filter each settled batch by
`isHighlyRelevant`, stopping early once `targetCount` is reached. -/
def aggLoop (query : String) (analysis : QueryAnalysis) (targetCount : Nat) :
    List (List CompactMessage) → List CompactMessage → List CompactMessage
  | [], acc => acc
  | r :: rest, acc =>
    let acc2 := acc ++ r.filter fun m => isHighlyRelevant m query analysis
    if targetCount ≤ acc2.length then acc2
    else aggLoop query analysis targetCount rest acc2

/-- `gatherRelevantCandidates` (`src/search.ts:147`). -/
def gatherRelevantCandidates (env : Env) (cache : Cache) (projectDirs : List String)
    (query : String) (analysis : QueryAnalysis) (timeFilter : Int → Bool)
    (targetCount : Nat) : List CompactMessage × Cache × List Access :=
  let perProject :=
    if projectDirs.length = 0 then 0
    else (targetCount + projectDirs.length - 1) / projectDirs.length
  let g := gatherLoop env query analysis timeFilter perProject projectDirs cache [] []
  (aggLoop query analysis targetCount g.1 [], g.2.1, g.2.2)

/-- `SearchResult` (`src/types.ts`).  At runtime the returned messages
are the spread objects carrying `finalScore`; `executionTime` is the
difference of two `Date.now()` readings, which collapses to `0` under
the single-instant clock of the model. -/
structure SearchResult where
  messages : List ScoredMessage
  totalResults : Nat
  searchQuery : String
  executionTime : Int
deriving DecidableEq

/-- `performOptimizedSearch` (`src/search.ts:82`).  Note the order:
the project directories are listed *before* the `query.length < 3`
early return. -/
def performOptimizedSearch (env : Env) (cache : Cache) (query : String)
    (analysis : QueryAnalysis) (limit : Nat)
    (projectFilter timeframe : Option String) :
    SearchResult × Cache × List Access :=
  let timeFilter := Utils.getTimeRangeFilter env timeframe
  let pd := Utils.findProjectDirectories env
  if query.length < 3 then
    ({ messages := [], totalResults := 0, searchQuery := query,
       executionTime := 0 }, cache, pd.2)
  else
    let maxProjects := min pd.1.length (max 8 ((limit + 1) / 2))
    let targetDirs :=
      match projectFilter with
      | some pf => pd.1.filter fun dir => jsIncludes dir pf
      | none => pd.1.take maxProjects
    let g := gatherRelevantCandidates env cache targetDirs query analysis
      timeFilter (limit * 2)
    let topRelevant := selectTopRelevantResults g.1 query analysis env.now limit
    let qualityResults := topRelevant.filter qualityGate
    ({ messages := qualityResults, totalResults := g.1.length,
       searchQuery := query, executionTime := 0 }, g.2.1, pd.2 ++ g.2.2)

/-- `searchConversations` (`src/search.ts:21`).  The out-most
`try/catch` returns an empty result on any escaped error; in the model
every callee of `performOptimizedSearch` already absorbs its oracle
failures, so the body is total and the `catch` arm is provably
unreachable. -/
def searchConversations (env : Env) (cache : Cache) (query : String)
    (projectFilter timeframe : Option String) (limit : Nat := 15) :
    SearchResult × Cache × List Access :=
  let analysis := analyzeQueryIntent query
  performOptimizedSearch env cache query analysis limit projectFilter timeframe

end SearchEngine

namespace SearchHelpers

/-! ## `SearchHelpers` (`src/search-helpers.ts`) -/

/-- `createContentSignature` (`src/search-helpers.ts:61`): sorted file
list, sorted tool list, error list (unsorted), and the normalized
200-character content prefix, joined by colons. -/
def createContentSignature (message : CompactMessage) : String :=
  let content := jsToLower message.content
  let files := jsJoin "|"
    (List.insertionSort (fun a b : String => a ≤ b) message.files)
  let tools := jsJoin "|"
    (List.insertionSort (fun a b : String => a ≤ b) message.tools)
  let errors := jsJoin "|" message.errors
  let normalizedContent := jsTake
    ⟨squashWs ((squashDigits content.data).filter
      fun c => !SearchEngine.quoteChars.contains c)⟩ 200
  files ++ ":" ++ tools ++ ":" ++ errors ++ ":" ++ normalizedContent

/-- One `Map.set` step of `deduplicateByContent`
(`src/search-helpers.ts:40`): keep the message with the higher
relevance score per signature. -/
def dedupByContentInsert (seen : List (String × CompactMessage))
    (message : CompactMessage) : List (String × CompactMessage) :=
  let signature := createContentSignature message
  if seen.any fun p => p.1 = signature then
    seen.map fun p =>
      if p.1 = signature ∧ p.2.score < message.score then (p.1, message) else p
  else seen ++ [(signature, message)]

/-- `deduplicateByContent` (`src/search-helpers.ts:40`). -/
def deduplicateByContent (messages : List CompactMessage) : List CompactMessage :=
  (messages.foldl dedupByContentInsert []).map Prod.snd

/-- `FileContext.operationType` (`src/types.ts`). -/
inductive OperationType
  | read
  | write
  | edit
  | delete
deriving DecidableEq

/-- `inferOperationType` (`src/search-helpers.ts:142`). -/
def inferOperationType (messages : List CompactMessage) : OperationType :=
  let hasWrites := messages.any fun msg =>
    jsIncludes (jsToLower msg.content) "write"
      || jsIncludes (jsToLower msg.content) "edit"
      || msg.tools.contains "Edit"
  let hasReads := messages.any fun msg => msg.tools.contains "Read"
  if hasWrites then .edit
  else if hasReads then .read
  else .read

/-- `isWordSimilar` (`src/search-helpers.ts:271`). -/
def isWordSimilar (word1 word2 : String) : Bool :=
  if 3 < ((word1.length : Int) - (word2.length : Int)).natAbs then false
  else
    let minLen := min word1.length word2.length
    if minLen < 4 then false
    else
      let matched := ((word1.data.zip word2.data).filter fun p => p.1 = p.2).length
      decide ((minLen : ℚ) * ((6 : ℚ) / 10) ≤ (matched : ℚ))

/-- The technical-synonym table of `calculateQuerySimilarity`
(`src/search-helpers.ts:170-178`), in source order. -/
def technicalSynonyms : List (String × List String) :=
  [("error", ["exception", "fail", "crash", "bug", "issue", "problem"]),
   ("fix", ["resolve", "solve", "repair", "correct", "solution"]),
   ("install", ["setup", "configure", "add", "create"]),
   ("build", ["compile", "bundle", "deploy", "package"]),
   ("test", ["verify", "check", "validate", "debug"]),
   ("typescript", ["ts", "type", "interface"]),
   ("javascript", ["js", "node", "npm"])]

/-- The semantic-synonym scan of the else-branch
(`src/search-helpers.ts:205-214`): the loop writes `0.7` at the first
matching table entry and breaks, so only whether some entry matches is
observable. -/
def isSynonymPair (word1 word2 : String) : Bool :=
  technicalSynonyms.any fun p =>
    (p.1 = word1 && p.2.contains word2)
      || (p.1 = word2 && p.2.contains word1)
      || (p.2.contains word1 && p.2.contains word2)

/-- The per-word match score of the greedy alignment
(`src/search-helpers.ts:193-215`): exact match 1, substring
`0.8 * shorter/longer`, similar word `0.6`, technical synonyms
`0.7`. -/
def wordMatchScore (word1 word2 : String) : ℚ :=
  if word1 = word2 then 1
  else if jsIncludes word1 word2 || jsIncludes word2 word1 then
    (8 : ℚ) / 10 * ((min word1.length word2.length : ℚ)
      / (max word1.length word2.length : ℚ))
  else if isWordSimilar word1 word2 then (6 : ℚ) / 10
  else if isSynonymPair word1 word2 then (7 : ℚ) / 10
  else 0

/-- The inner best-match scan over `words2`
(`src/search-helpers.ts:186-208`): `acc` is `(bestMatch, bestIndex)`,
starting at `(0, -1)`; only a strictly better score moves it. -/
def bestMatchAux (word1 : String) : List String → Nat → List Nat → ℚ × Int → ℚ × Int
  | [], _, _, acc => acc
  | w2 :: rest, j, matched2, acc =>
    if matched2.contains j then bestMatchAux word1 rest (j + 1) matched2 acc
    else
      let ms := wordMatchScore word1 w2
      if acc.1 < ms then bestMatchAux word1 rest (j + 1) matched2 (ms, j)
      else bestMatchAux word1 rest (j + 1) matched2 acc

/-- The outer alignment loop over `words1`
(`src/search-helpers.ts:183-214`). -/
def simLoop (words2 : List String) : List String → List Nat → ℚ → ℚ
  | [], _, total => total
  | w1 :: rest, matched2, total =>
    let bm := bestMatchAux w1 words2 0 matched2 (0, -1)
    if 0 ≤ bm.2 then simLoop words2 rest (matched2 ++ [bm.2.toNat]) (total + bm.1)
    else simLoop words2 rest matched2 total

/-- The keyword list of the technical-query boost
(`src/search-helpers.ts:229-230`). -/
def technicalBoostKeywords : List String :=
  ["error", "fix", "build", "install", "typescript", "javascript"]

/-- `calculateQuerySimilarity` (`src/search-helpers.ts:157`): greedy
word alignment, then `min((total/maxWords) * lengthPenalty *
technicalBoost, 1.0)`, where the boost is `1.2` when either word list
contains a boost keyword. -/
def calculateQuerySimilarity (query1 query2 : String) : ℚ :=
  let words1 := (jsSplitWs (jsToLower query1)).filter fun w => 2 < w.length
  let words2 := (jsSplitWs (jsToLower query2)).filter fun w => 2 < w.length
  if words1.length = 0 ∨ words2.length = 0 then 0
  else
    let maxWords := max words1.length words2.length
    let minWords := min words1.length words2.length
    let totalScore := simLoop words2 words1 [] 0
    let isTechnical := words1.any (technicalBoostKeywords.contains ·)
      || words2.any (technicalBoostKeywords.contains ·)
    let technicalBoost : ℚ := if isTechnical then (12 : ℚ) / 10 else 1
    let lengthPenalty := (minWords : ℚ) / (maxWords : ℚ)
    min (totalScore / (maxWords : ℚ) * lengthPenalty * technicalBoost) 1

/-- The tech-keyword list of `hasExactKeywords`
(`src/search-helpers.ts:230`). -/
def techKeywords : List String :=
  ["error", "fix", "implement", "optimize", "debug", "build", "deploy",
   "test", "tool", "file", "code"]

/-- `hasExactKeywords` (`src/search-helpers.ts:220`). -/
def hasExactKeywords (query1 query2 : String) : Bool :=
  let keywords1 := (jsSplitWs (jsToLower query1)).filter fun w => 2 < w.length
  let keywords2 := (jsSplitWs (jsToLower query2)).filter fun w => 2 < w.length
  let hasTechMatch := keywords1.any fun k1 =>
    techKeywords.contains k1 && keywords2.any fun k2 => jsIncludes k2 k1
  let sharedKeywords := keywords1.filter fun k =>
    keywords2.any fun k2 => k = k2 || jsIncludes k k2 || jsIncludes k2 k
  hasTechMatch || 2 ≤ sharedKeywords.length
    || sharedKeywords.any fun k => 6 < k.length

/-- `extractSolutionContext` (`src/search-helpers.ts:287`). -/
def extractSolutionContext (messages : List CompactMessage) : String :=
  jsTake (jsJoin " " (messages.map (·.content))) 200 ++ "..."

/-- The error-introducing keywords of `hasErrorInContent`
(`src/search-helpers.ts:350-363`), in source order. -/
def errorKeywords : List String :=
  ["error:", "failed:", "exception:", "cannot", "unable to", "not found",
   "permission denied", "typeerror", "referenceerror", "syntaxerror",
   "module not found", "compilation error"]

/-- The separator class `[\s:_-]` of `hasErrorInContent`
(`src/search-helpers.ts:366`). -/
def errSepB (c : Char) : Bool :=
  wsB c || c = ':' || c = '_' || c = '-'

/-- `hasErrorInContent` (`src/search-helpers.ts:343`): a literal
pattern hit, or some error keyword in the content together with some
pattern word (from the `[\s:_-]+` split, length `> 2`) in the
content. -/
def hasErrorInContent (content errorPattern : String) : Bool :=
  let lowerContent := jsToLower content
  let lowerPattern := jsToLower errorPattern
  if jsIncludes lowerContent lowerPattern then true
  else
    let patternWords := (jsSplitClass errSepB lowerPattern).filter fun w =>
      2 < w.length
    errorKeywords.any fun keyword =>
      jsIncludes lowerContent keyword
        && patternWords.any fun word => jsIncludes lowerContent word

end SearchHelpers

namespace SearchEngine

/-! ## The five aggregation views (`src/search.ts:666-1217`) -/

/-- `Promise.allSettled` followed by keeping the fulfilled values. -/
def allSettled (tasks : List (Except Unit α)) : List α :=
  tasks.filterMap fun t =>
    match t with
    | .ok a => some a
    | .error _ => none

/-- `FileContext` (`src/types.ts`). -/
structure FileContext where
  filePath : String
  lastModified : Int
  relatedMessages : List CompactMessage
  operationType : SearchHelpers.OperationType
deriving DecidableEq

/-- The per-reference matching disjunction of `findFileContext`
(`src/search.ts:690-704`). -/
def fileRefMatches (filePath ref : String) : Bool :=
  let refLower := jsToLower ref
  let pathLower := jsToLower filePath
  jsIncludes refLower pathLower || jsIncludes pathLower refLower
    || jsEndsWith refLower ("/" ++ pathLower)
    || jsEndsWith pathLower ("/" ++ refLower)
    || ((jsSplitChar '/' refLower).getLast?).getD "" = pathLower
    || ((jsSplitChar '/' pathLower).getLast?).getD "" = refLower
    || refLower = pathLower
    || jsIncludes refLower (mapChars (fun c => if c = '\\' then '/' else c) pathLower)
    || jsIncludes refLower (mapChars (fun c => if c = '/' then '\\' else c) pathLower)

/-- The path-variation list of `findFileContext`
(`src/search.ts:709-715`). -/
def pathVariations (filePath : String) : List String :=
  let p := jsToLower filePath
  [p,
   mapChars (fun c => if c = '\\' then '/' else c) p,
   mapChars (fun c => if c = '/' then '\\' else c) p,
   ((jsSplitChar '/' p).getLast?).getD "",
   ((jsSplitChar '\\' p).getLast?).getD ""]

/-- `ch` immediately followed by a whitespace character (the `M\s+`
alternatives of the git regex; case-sensitive). -/
def hasCharThenWs (ch : Char) : List Char → Bool
  | [] => false
  | [_] => false
  | a :: b :: rest => (a = ch && wsB b) || hasCharThenWs ch (b :: rest)

/-- A match of the git-pattern regex of `findFileContext`
(`src/search.ts:722`). -/
def hasGitMarker (content : String) : Bool :=
  jsIncludes content "modified" || jsIncludes content "added"
    || jsIncludes content "deleted" || jsIncludes content "new file"
    || jsIncludes content "renamed"
    || hasCharThenWs 'M' content.data || hasCharThenWs 'A' content.data
    || hasCharThenWs 'D' content.data

/-- The message filter of `findFileContext` (`src/search.ts:688-729`). -/
def fileMsgMatches (filePath : String) (msg : CompactMessage) : Bool :=
  let hasFileRef := msg.files.any (fileRefMatches filePath)
  let contentLower := jsToLower msg.content
  let hasContentRef := (pathVariations filePath).any fun variation =>
    0 < variation.length && jsIncludes contentLower variation
  let hasGitRef := hasGitMarker msg.content
    && (pathVariations filePath).any fun variation =>
      0 < variation.length && jsIncludes contentLower variation
  hasFileRef || hasContentRef || hasGitRef

/-- The per-file body of `findFileContext` (`src/search.ts:684-752`). -/
def fileContextOfFile (env : Env) (filePath : String) (limit : Nat)
    (projectDir file : String) : Except Unit (Option FileContext) :=
  match env.parseJsonlFile projectDir file none (fun _ => true) with
  | .error u => .error u
  | .ok messages =>
    let fileMessages := messages.filter (fileMsgMatches filePath)
    if fileMessages.length ≠ 0 then
      let clean := fileMessages.filter fun msg =>
        15 < msg.content.length && !isLowValueContent msg.content
      let deduped := SearchHelpers.deduplicateByContent clean
      if deduped.length ≠ 0 then
        .ok (some
          { filePath := filePath,
            lastModified := ((deduped.head?).map (·.timestamp)).getD 0,
            relatedMessages := deduped.take (min limit 10),
            operationType := SearchHelpers.inferOperationType deduped })
      else .ok none
    else .ok none

/-- `findFileContext` (`src/search.ts:666`): 15 projects, 10 files
each, all in (cooperatively modelled) parallel; rejected file promises
and null results are dropped; final sort by `lastModified`
descending.  The outer `catch` is unreachable because every inner
failure is already absorbed. -/
def findFileContext (env : Env) (filePath : String) (limit : Nat := 25) :
    List FileContext :=
  let limitedDirs := (Utils.findProjectDirectories env).1.take 15
  let projectResults := limitedDirs.map fun projectDir =>
    let limitedFiles := (Utils.findJsonlFiles env projectDir).1.take 10
    (allSettled (limitedFiles.map fun file =>
      fileContextOfFile env filePath limit projectDir file)).filterMap id
  let fileContexts := projectResults.foldl (fun acc l => acc ++ l) []
  List.insertionSort (fun a b : FileContext => b.lastModified ≤ a.lastModified)
    fileContexts

/-- The per-file body of `findSimilarQueries` (`src/search.ts:798-816`):
filter the user queries and collect those similar to the target. -/
def fsqProcessFile (env : Env) (targetQuery projectDir file : String)
    (acc : List CompactMessage) : Except Unit (List CompactMessage) :=
  match env.parseJsonlFile projectDir file none (fun _ => true) with
  | .error u => .error u
  | .ok messages =>
    let userQueries := messages.filter fun msg =>
      msg.type = MsgType.user && 15 < msg.content.length
        && msg.content.length < 800 && !isLowValueContent msg.content
    .ok (userQueries.foldl
      (fun acc q =>
        let similarity := SearchHelpers.calculateQuerySimilarity targetQuery q.content
        if (1 : ℚ) / 5 < similarity
            || SearchHelpers.hasExactKeywords targetQuery q.content then
          acc ++ [{ q with relevanceScore := some similarity }]
        else acc)
      acc)

/-- The file loop of `findSimilarQueries`, with its early termination
at `limit * 4` candidates; a parser rejection propagates. -/
def fsqFilesLoop (env : Env) (targetQuery projectDir : String) (limit : Nat) :
    List String → List CompactMessage → Except Unit (List CompactMessage)
  | [], acc => .ok acc
  | file :: rest, acc =>
    match fsqProcessFile env targetQuery projectDir file acc with
    | .error u => .error u
    | .ok acc2 =>
      if limit * 4 ≤ acc2.length then .ok acc2
      else fsqFilesLoop env targetQuery projectDir limit rest acc2

/-- The project loop of `findSimilarQueries`. -/
def fsqDirsLoop (env : Env) (targetQuery : String) (limit : Nat) :
    List String → List CompactMessage → Except Unit (List CompactMessage)
  | [], acc => .ok acc
  | dir :: rest, acc =>
    match fsqFilesLoop env targetQuery dir limit
        ((Utils.findJsonlFiles env dir).1.take 5) acc with
    | .error u => .error u
    | .ok acc2 =>
      if limit * 4 ≤ acc2.length then .ok acc2
      else fsqDirsLoop env targetQuery limit rest acc2

/-- `findSimilarQueries` (`src/search.ts:783`): sequential loops over 8
projects and 5 files each; a parser rejection reaches the outer
`catch`, which returns `[]`. -/
def findSimilarQueries (env : Env) (targetQuery : String) (limit : Nat := 10) :
    List CompactMessage :=
  match fsqDirsLoop env targetQuery limit
      ((Utils.findProjectDirectories env).1.take 8) [] with
  | .error _ => []
  | .ok allMessages =>
    ((List.insertionSort (fun a b : CompactMessage => b.score ≤ a.score)
        (allMessages.filter fun msg => !isLowValueContent msg.content)).take limit)

/-- `ErrorSolution` (`src/types.ts`). -/
structure ErrorSolution where
  errorPattern : String
  solution : List CompactMessage
  context : String
  frequency : Nat
deriving DecidableEq

/-- JS `Map<string, T[]>` get-or-create-then-push. -/
def mapAppend (m : List (String × List CompactMessage)) (k : String)
    (vs : List CompactMessage) : List (String × List CompactMessage) :=
  if m.any fun p => p.1 == k then
    m.map fun p => if p.1 == k then (p.1, p.2 ++ vs) else p
  else m ++ [(k, vs)]

/-- The error-scan of one file (`src/search.ts:864-890`): for each
index `i` below `length - 1`, when the message matches the error
pattern, push the filtered 5-message window starting at `i` under its
error key. -/
def perFileErrorMap (errorPattern : String) (messages : List CompactMessage)
    (init : List (String × List CompactMessage)) :
    List (String × List CompactMessage) :=
  (List.range (messages.length - 1)).foldl
    (fun em i =>
      match messages.get? i with
      | none => em
      | some current =>
        if current.errors.any
            (fun err => jsIncludes (jsToLower err) (jsToLower errorPattern))
            || SearchHelpers.hasErrorInContent current.content errorPattern then
          let k0 := (current.errors.head?).getD ""
          let errorKey := if k0 = "" then errorPattern else k0
          let solutionMessages := ((messages.drop i).take 5).filter fun msg =>
            msg.type = MsgType.assistant || msg.type = MsgType.toolResult
              || (msg.type = MsgType.user && msg.content.length < 200)
          mapAppend em errorKey solutionMessages
        else em)
    init

/-- The per-project error map of `getErrorSolutions`
(`src/search.ts:850-894`): 6 files, rejected parses contribute
nothing. -/
def gesProjectMap (env : Env) (errorPattern projectDir : String) :
    List (String × List CompactMessage) :=
  ((Utils.findJsonlFiles env projectDir).1.take 6).foldl
    (fun pm file =>
      match env.parseJsonlFile projectDir file none (fun _ => true) with
      | .error _ => pm
      | .ok messages => perFileErrorMap errorPattern messages pm)
    []

/-- `getErrorSolutions` (`src/search.ts:838`). -/
def getErrorSolutions (env : Env) (errorPattern : String) (limit : Nat := 10) :
    List ErrorSolution :=
  let errorMap : List (String × List CompactMessage) :=
    ((Utils.findProjectDirectories env).1.take 12).foldl
    (fun (em : List (String × List CompactMessage)) dir =>
      (gesProjectMap env errorPattern dir).foldl
        (fun em p => mapAppend em p.1 p.2) em)
    []
  let solutions : List ErrorSolution := errorMap.foldl
    (fun (sols : List ErrorSolution) p =>
      let qualitySolutions : List CompactMessage := p.2.filter fun msg =>
        !isLowValueContent msg.content && decide (60 ≤ msg.content.length)
          && (jsIncludes msg.content "solution" || jsIncludes msg.content "fix"
            || jsIncludes msg.content "resolved")
      if 0 < qualitySolutions.length then
        sols ++ [{ errorPattern := p.1,
                   solution := qualitySolutions.take 3,
                   context := SearchHelpers.extractSolutionContext qualitySolutions,
                   frequency := p.2.length }]
      else sols)
    []
  (List.insertionSort (fun a b : ErrorSolution => b.frequency ≤ a.frequency)
    solutions).take limit

/-- `ToolPattern` (`src/types.ts`). -/
structure ToolPattern where
  toolName : String
  successfulUsages : List CompactMessage
  commonPatterns : List String
  bestPractices : List String
deriving DecidableEq

/-- The core-tool set of `getToolPatterns` (`src/search.ts:946`). -/
def coreTools : List String :=
  ["Edit", "Read", "Bash", "Grep", "Glob", "Write", "Task", "MultiEdit",
   "Notebook"]

/-- The tracking condition
`coreTools.has(tool) || !toolName || tool === toolName`. -/
def toolTracked (toolName : Option String) (tool : String) : Bool :=
  coreTools.contains tool || toolName.isNone || toolName = some tool

/-- Individual tool usage extraction of one file
(`src/search.ts:963-975`). -/
def tpFileToolMap (toolName : Option String) (messages : List CompactMessage)
    (tm : List (String × List CompactMessage)) :
    List (String × List CompactMessage) :=
  messages.foldl
    (fun tm msg =>
      msg.tools.foldl
        (fun tm tool =>
          if toolTracked toolName tool then mapAppend tm tool [msg] else tm)
        tm)
    tm

/-- Two-step workflow extraction of one file
(`src/search.ts:978-998`). -/
def tpFilePairMap (toolName : Option String) (messages : List CompactMessage)
    (wm : List (String × List CompactMessage)) :
    List (String × List CompactMessage) :=
  (messages.zip (messages.drop 1)).foldl
    (fun wm pr =>
      if 0 < pr.1.tools.length && 0 < pr.2.tools.length then
        pr.1.tools.foldl
          (fun wm currentTool =>
            pr.2.tools.foldl
              (fun wm nextTool =>
                if toolTracked toolName currentTool && toolTracked toolName nextTool
                then mapAppend wm (currentTool ++ " → " ++ nextTool) [pr.1, pr.2]
                else wm)
              wm)
          wm
      else wm)
    wm

/-- Three-step workflow extraction of one file
(`src/search.ts:1001-1025`); only the first two tools are required to
be core tools. -/
def tpFileTripleMap (messages : List CompactMessage)
    (wm : List (String × List CompactMessage)) :
    List (String × List CompactMessage) :=
  ((messages.zip (messages.drop 1)).zip (messages.drop 2)).foldl
    (fun wm tr =>
      if 0 < tr.1.1.tools.length && 0 < tr.1.2.tools.length
          && 0 < tr.2.tools.length then
        tr.1.1.tools.foldl
          (fun wm firstTool =>
            tr.1.2.tools.foldl
              (fun wm secondTool =>
                tr.2.tools.foldl
                  (fun wm thirdTool =>
                    if coreTools.contains firstTool && coreTools.contains secondTool
                    then mapAppend wm
                      (firstTool ++ " → " ++ secondTool ++ " → " ++ thirdTool)
                      [tr.1.1, tr.1.2, tr.2]
                    else wm)
                  wm)
              wm)
          wm
      else wm)
    wm

/-- The per-project tool and workflow maps of `getToolPatterns`
(`src/search.ts:950-1029`): 8 files, rejected parses contribute
nothing. -/
def tpProjectMaps (env : Env) (toolName : Option String) (projectDir : String) :
    List (String × List CompactMessage) × List (String × List CompactMessage) :=
  ((Utils.findJsonlFiles env projectDir).1.take 8).foldl
    (fun maps file =>
      match env.parseJsonlFile projectDir file none (fun _ => true) with
      | .error _ => maps
      | .ok messages =>
        (tpFileToolMap toolName messages maps.1,
         tpFileTripleMap messages (tpFilePairMap toolName messages maps.2)))
    ([], [])

/-- A workflow `ToolPattern` entry (`src/search.ts:1087-1092` and
`src/search.ts:1103-1108`). -/
def workflowPattern (workflow : String) (messages : List CompactMessage) :
    ToolPattern :=
  let uniqueMessages := SearchHelpers.deduplicateByContent messages
  { toolName := workflow,
    successfulUsages := uniqueMessages.take 10,
    commonPatterns := [workflow],
    bestPractices :=
      [workflow ++ " workflow (" ++ toString uniqueMessages.length
        ++ "x successful)"] }

/-- `getToolPatterns` (`src/search.ts:937`): individual core tools
first (by usage count), then workflows related to those tools, then
remaining workflows by frequency; final sort puts individual tools
before workflows and orders by deduplicated usage count. -/
def getToolPatterns (env : Env) (toolName : Option String) (limit : Nat := 20) :
    List ToolPattern :=
  let aggregated := ((Utils.findProjectDirectories env).1.take 15).foldl
    (fun acc dir =>
      let pm := tpProjectMaps env toolName dir
      (pm.1.foldl (fun tm p => mapAppend tm p.1 p.2) acc.1,
       pm.2.foldl (fun wm p => mapAppend wm p.1 p.2) acc.2))
    ([], [])
  let toolMap := aggregated.1
  let workflowMap := aggregated.2
  let sortedTools := List.insertionSort
    (fun a b : String × List CompactMessage => b.2.length ≤ a.2.length) toolMap
  let step1 := sortedTools.foldl
    (fun (acc : List ToolPattern × List String) p =>
      if 1 ≤ p.2.length && !acc.2.contains p.1 && acc.1.length < limit then
        let uniqueMessages := SearchHelpers.deduplicateByContent p.2
        (acc.1 ++ [{ toolName := p.1,
                     successfulUsages := uniqueMessages.take 10,
                     commonPatterns := [p.1 ++ " usage pattern"],
                     bestPractices := [p.1 ++ " used "
                       ++ toString uniqueMessages.length ++ "x successfully"] }],
         acc.2 ++ [p.1])
      else acc)
    ([], [])
  let patterns2 := step1.2.foldl
    (fun pats tool =>
      workflowMap.foldl
        (fun pats wp =>
          if jsIncludes wp.1 tool && jsIncludes wp.1 "→" && 1 ≤ wp.2.length then
            if !(pats.any fun pp => pp.toolName = wp.1) && pats.length < limit
            then pats ++ [workflowPattern wp.1 wp.2]
            else pats
          else pats)
        pats)
    step1.1
  let sortedWf := List.insertionSort
    (fun a b : String × List CompactMessage => b.2.length ≤ a.2.length) workflowMap
  let patterns3 := sortedWf.foldl
    (fun pats wp =>
      if jsIncludes wp.1 "→" && 1 ≤ wp.2.length && pats.length < limit then
        if !(pats.any fun pp => pp.toolName = wp.1)
        then pats ++ [workflowPattern wp.1 wp.2]
        else pats
      else pats)
    patterns2
  (List.insertionSort
    (fun a b : ToolPattern =>
      if jsIncludes a.toolName "→" ≠ jsIncludes b.toolName "→" then
        jsIncludes b.toolName "→"
      else b.successfulUsages.length ≤ a.successfulUsages.length)
    patterns3).take limit

/-- The session summary objects built by `getRecentSessions`
(`src/search.ts:1168-1181`). -/
structure SessionSummary where
  session_id : String
  project_path : String
  project_dir : String
  project_name : String
  message_count : Nat
  duration_minutes : Int
  end_time : Int
  start_time : Int
  tools_used : List String
  assistant_count : Nat
  error_count : Nat
  session_quality : String
deriving DecidableEq

/-- JS `s.replace(pat, to)` (non-global: first occurrence only). -/
def replaceFirstAux (pat repl : List Char) : List Char → List Char
  | [] => []
  | c :: rest =>
    if pat.isPrefixOf (c :: rest) then repl ++ (c :: rest).drop pat.length
    else c :: replaceFirstAux pat repl rest

/-- JS `s.replace(pat, to)` on strings. -/
def replaceFirst (s pat repl : String) : String :=
  ⟨replaceFirstAux pat.data repl.data s.data⟩

/-- `[...new Set(list)]`: first-occurrence deduplication. -/
def dedupFirst (l : List String) : List String :=
  l.foldl (fun acc s => if acc.contains s then acc else acc ++ [s]) []

/-- `Math.round((end - start) / 60000)` on millisecond integers
(`Math.round x = ⌊x + 1/2⌋`). -/
def jsRoundDiv60000 (d : Int) : Int :=
  Int.fdiv (2 * d + 60000) 120000

/-- `calculateSessionQuality` (`src/search.ts:1211`). -/
def calculateSessionQuality (messages : List CompactMessage)
    (toolsUsed : List String) (errorMessages : List CompactMessage) : String :=
  let score : ℚ := (toolsUsed.length : ℚ) * 10
    + (messages.length : ℚ) * ((5 : ℚ) / 10) - (errorMessages.length : ℚ) * 5
  if 50 < score then "excellent"
  else if 25 < score then "good"
  else if 10 < score then "average"
  else "poor"

/-- The per-file session extraction of `getRecentSessions`
(`src/search.ts:1152-1182`). -/
def sessionOfFile (env : Env) (projectDir file decodedPath projectName : String) :
    Except Unit (Option SessionSummary) :=
  match env.parseJsonlFile projectDir file none (fun _ => true) with
  | .error u => .error u
  | .ok messages =>
    if messages.length = 0 then .ok none
    else
      let toolsUsed := dedupFirst (messages.foldl (fun acc m => acc ++ m.tools) [])
      let startTime := ((messages.head?).map (·.timestamp)).getD 0
      let endTime := ((messages.getLast?).map (·.timestamp)).getD 0
      let realDuration :=
        if startTime ≠ 0 ∧ endTime ≠ 0 then jsRoundDiv60000 (endTime - startTime)
        else 0
      .ok (some
        { session_id := replaceFirst file ".jsonl" "",
          project_path := decodedPath,
          project_dir := projectDir,
          project_name := projectName,
          message_count := messages.length,
          duration_minutes := realDuration,
          end_time := endTime,
          start_time := startTime,
          tools_used := toolsUsed.take 5,
          assistant_count := (messages.filter fun m => m.type = MsgType.assistant).length,
          error_count := (messages.filter fun m => 0 < m.errors.length).length,
          session_quality := calculateSessionQuality messages toolsUsed [] })

/-- `getRecentSessions` (`src/search.ts:1133`): 10 projects, 5 files
each; sessions with a falsy end time are dropped; sorted by end time
descending. -/
def getRecentSessions (env : Env) (limit : Nat := 10) : List SessionSummary :=
  let sessions := ((Utils.findProjectDirectories env).1.take 10).foldl
    (fun acc projectDir =>
      let decodedPath := Utils.decodeProjectPath projectDir
      let pn0 := ((jsSplitChar '/' decodedPath).getLast?).getD ""
      let projectName := if pn0 = "" then "unknown" else pn0
      acc ++ ((Utils.findJsonlFiles env projectDir).1.take 5).foldl
        (fun facc file =>
          match sessionOfFile env projectDir file decodedPath projectName with
          | .error _ => facc
          | .ok none => facc
          | .ok (some s) => facc ++ [s])
        [])
    []
  (List.insertionSort (fun a b : SessionSummary => b.end_time ≤ a.end_time)
    (sessions.filter fun s => s.end_time ≠ 0)).take limit

end SearchEngine


/-- Decidable equality for `Except` results (used to evaluate the
oracle outcomes in concrete counterexamples). -/
instance {ε α : Type} [DecidableEq ε] [DecidableEq α] : DecidableEq (Except ε α) :=
  fun a b =>
    match a, b with
    | .ok x, .ok y => decidable_of_iff (x = y) (by simp)
    | .error x, .error y => decidable_of_iff (x = y) (by simp)
    | .ok _, .error _ => isFalse (by intro h; cases h)
    | .error _, .ok _ => isFalse (by intro h; cases h)

/-- The ordering asserted by claim C1 between adjacent results `r1`
(earlier) and `r2` (later): strictly greater boosted score, or equal
score with `r1.timestamp ≥ r2.timestamp`. -/
def claimOrderedB : List ScoredMessage → Bool
  | [] => true
  | [_] => true
  | r1 :: r2 :: rest =>
    (decide (r2.finalScore < r1.finalScore)
        || (decide (r1.finalScore = r2.finalScore)
            && decide (r2.timestamp ≤ r1.timestamp)))
      && claimOrderedB (r2 :: rest)

/-- Propositional form of the C1 adjacency claim. -/
def claimOrdered (l : List ScoredMessage) : Prop :=
  claimOrderedB l = true

instance (l : List ScoredMessage) : Decidable (claimOrdered l) :=
  inferInstanceAs (Decidable (claimOrderedB l = true))

/-- First candidate for the C1 counterexample: the *older* message,
parsed first from the session file. -/
def c1m1 : CompactMessage :=
  { uuid := "u1", timestamp := 1000, type := .assistant,
    content := "alpha beta gamma delta epsilon zeta eta theta iota kappa lambda mu nu xi omicron pi rho",
    sessionId := "s", projectPath := none, relevanceScore := some 2,
    context := none }

/-- Second candidate for the C1 counterexample: same relevance score,
*newer* timestamp, different content (hence a different signature). -/
def c1m2 : CompactMessage :=
  { uuid := "u2", timestamp := 2000, type := .assistant,
    content := "omega psi chi phi upsilon tau sigma rho pi omicron xi nu mu lambda kappa iota theta eta",
    sessionId := "s", projectPath := none, relevanceScore := some 2,
    context := none }

/-- Environment for the C1 counterexample: one project, one session
file, whose parse yields the two equal-scored messages in file
order. -/
def c1env : Env :=
  { readdirRoot := .ok ["proj"],
    statIsDir := fun _ => .ok true,
    readdirProject := fun _ => .ok ["s.jsonl"],
    parseJsonlFile := fun _ _ _ _ => .ok [c1m1, c1m2],
    now := 0, startOfToday := 0, startOfYesterday := 0,
    weekCutoff := 0, monthCutoff := 0 }

/-- Environment for the C6 counterexample and witness: the projects
root exists and holds one directory entry. -/
def c6env : Env :=
  { readdirRoot := .ok ["p1"],
    statIsDir := fun _ => .ok true,
    readdirProject := fun _ => .ok [],
    parseJsonlFile := fun _ _ _ _ => .ok [],
    now := 0, startOfToday := 0, startOfYesterday := 0,
    weekCutoff := 0, monthCutoff := 0 }

/-- The message returned by the C5 parser oracle, scored `score` for
the query it was parsed for. -/
def c5msg (score : ℚ) : CompactMessage :=
  { uuid := "u", timestamp := 0, type := .assistant,
    content := "fixed the docker authentication bug by renewing the token",
    sessionId := "s", projectPath := none, relevanceScore := some score,
    context := none }

/-- Environment for C5.  Modelled from the spec: the parser
(`src/parser.ts`, absent from the snapshot) assigns a query-specific
relevance score during parsing (spec §3, NormalizedMessage lifecycle),
so the oracle scores the message 5 for the query `"docker"` and 1 for
any other query. -/
def c5env : Env :=
  { readdirRoot := .ok ["p"],
    statIsDir := fun _ => .ok true,
    readdirProject := fun _ => .ok ["f.jsonl"],
    parseJsonlFile := fun _ _ q _ =>
      .ok [c5msg (if q = some "docker" then 5 else 1)],
    now := 0, startOfToday := 0, startOfYesterday := 0,
    weekCutoff := 0, monthCutoff := 0 }

namespace Indexer

/-! ## `IntelligentIndexer.indexFile` (unnamed source file, class
`IntelligentIndexer`) -/

/-- The JSON object of one parsed line, as `indexFile` inspects it
(fields optional: `isValidMessage` checks their presence). -/
structure JsonMsg where
  uuid : Option String
  sessionId : Option String
  timestamp : Option String
  type : Option String
  message : Option MessageBody
deriving DecidableEq

/-- `isValidMessage`. -/
def isValidMessage (m : JsonMsg) : Bool :=
  match m.uuid, m.sessionId, m.timestamp, m.type with
  | some u, some s, some _, some t =>
    0 < u.length && 0 < s.length
      && (t == "user" || t == "assistant" || t == "tool_use" || t == "tool_result")
  | _, _, _, _ => false

/-- The stop-word set of `extractKeywords`. -/
def commonWords : List String :=
  ["the", "a", "an", "and", "or", "but", "in", "on", "at", "to", "for", "of",
   "with", "by", "i", "you", "he", "she", "it", "we", "they", "this", "that",
   "these", "those", "is", "are", "was", "were", "be", "been", "being",
   "have", "has", "had", "do", "does", "did", "will", "would", "could",
   "should", "can", "may", "might", "must", "file", "code", "function",
   "class", "method", "variable", "error", "message"]

/-- The JS `\w` class (ASCII letters, digits, underscore). -/
def wordClass (c : Char) : Bool := c.isAlphanum || c = '_'

/-- One step of the frequency-counting fold of `extractKeywords`: an
upsert that is silently dropped once the map holds 500 entries (the
source checks the size before *every* `set`, including updates). -/
def freqFold (counts : List (String × Nat)) (word : String) : List (String × Nat) :=
  if counts.length < 500 then
    match counts.find? (fun p => p.1 == word) with
    | some _ => counts.map fun p => if p.1 == word then (p.1, p.2 + 1) else p
    | none => counts ++ [(word, 1)]
  else counts

/-- `extractKeywords`: lower-case, strip punctuation, split, filter
stop words and numerics, count, keep the 15 most frequent tokens. -/
def extractKeywords (content0 : String) : List String :=
  let content := if 50000 < content0.length then jsTake content0 50000 else content0
  let lower := jsToLower content
  let replaced : String := ⟨lower.data.map fun c =>
    if wordClass c || wsB c then c else ' '⟩
  let words := ((jsSplitWs replaced).filter fun w =>
    2 < w.length && w.length < 30 && !commonWords.contains w
      && !(w.data.all Char.isDigit)).take 1000
  let counts := words.foldl freqFold []
  ((List.insertionSort (fun a b : String × Nat => b.2 ≤ a.2) counts).take 15).map
    Prod.fst

/-- The character class `[\w\-\/\.]` of the file-reference patterns. -/
def fileClass (c : Char) : Bool :=
  c.isAlphanum || c = '_' || c = '-' || c = '/' || c = '.'

/-- The extension alternation of the first file pattern. -/
def extAlternatives : List String :=
  ["ts", "js", "json", "md", "py", "java", "cpp", "c", "h", "css", "html",
   "yml", "yaml", "toml", "rs", "go"]

/-- A match of `[\w\-\/\.]+\.(ts|js|...)`: some class character
directly followed by a dot and one of the extensions. -/
def hasExtMatch : List Char → Bool
  | [] => false
  | a :: rest =>
    (fileClass a && (match rest with
      | '.' :: r2 => extAlternatives.any fun e => e.data.isPrefixOf r2
      | _ => false))
      || hasExtMatch rest

/-- A match of a literal prefix followed by at least one class
character (the `src\/[\w\-\/\.]+` and `\.\/[\w\-\/\.]+` patterns). -/
def hasSeqThenClass (pat : List Char) : List Char → Bool
  | [] => false
  | c :: rest =>
    (pat.isPrefixOf (c :: rest) && (match (c :: rest).drop pat.length with
      | d :: _ => fileClass d
      | [] => false))
      || hasSeqThenClass pat rest

/-- Continuation of `hasSlashRun`: inside the `[\w\-\/\.]+` run after
an opening slash, `n` class characters consumed so far. -/
def slashRunFrom : List Char → Nat → Bool
  | [], _ => false
  | c :: rest, n =>
    if c = '/' && 1 ≤ n then true
    else if fileClass c then slashRunFrom rest (n + 1)
    else false

/-- A match of `\/[\w\-\/\.]+\/`. -/
def hasSlashRun : List Char → Bool
  | [] => false
  | c :: rest => (c = '/' && slashRunFrom rest 0) || hasSlashRun rest

/-- `detectFileReferences` (the four `i`-flagged patterns are tested
on the lower-cased content, which preserves matches). -/
def detectFileReferences (content : String) : Bool :=
  let l := (jsToLower content).data
  hasExtMatch l || hasSeqThenClass "src/".data l
    || hasSeqThenClass "./".data l || hasSlashRun l

/-- `detectToolUsage` (the keyword test is case-sensitive in the
source). -/
def detectToolUsage (m : JsonMsg) : Bool :=
  (m.type == some "tool_use" || m.type == some "tool_result")
    || (let content := Utils.extractContentFromMessage (m.message.getD emptyBody)
        ["Read", "Write", "Edit", "Bash", "Glob", "Grep", "Task"].any fun tool =>
          jsIncludes content tool)

/-- A match of `kw[:\s]` (case-insensitive on lower-cased content). -/
def kwThenSep (kw : List Char) : List Char → Bool
  | [] => false
  | c :: rest =>
    (kw.isPrefixOf (c :: rest) && (match (c :: rest).drop kw.length with
      | d :: _ => d = ':' || wsB d
      | [] => false))
      || kwThenSep kw rest

/-- `detectErrors`. -/
def detectErrors (content : String) : Bool :=
  let l := (jsToLower content).data
  kwThenSep "error".data l || kwThenSep "exception".data l
    || kwThenSep "failed".data l || kwThenSep "cannot".data l
    || kwThenSep "unable to".data l
    || isInfixList "syntax error".data l || isInfixList "type error".data l
    || isInfixList "reference error".data l

/-- `MessageIndex`. -/
structure MessageIndex where
  uuid : String
  sessionId : String
  timestamp : String
  type : String
  contentLength : Nat
  hasFiles : Bool
  hasTools : Bool
  hasErrors : Bool
  keywords : List String
  projectDir : String
  filename : String
  lineNumber : Nat
deriving DecidableEq

/-- `createMessageIndex`: `null` when the content is empty, too short,
too long, or yields no keywords; those lines are neither processed nor
counted as skipped. -/
def createMessageIndex (m : JsonMsg) (projectDir filename : String)
    (lineNumber : Nat) : Option MessageIndex :=
  let content := Utils.extractContentFromMessage (m.message.getD emptyBody)
  if content = "" ∨ content.length < 10 ∨ 100000 < content.length then none
  else
    let keywords := extractKeywords content
    if keywords.length = 0 then none
    else some
      { uuid := m.uuid.getD "", sessionId := m.sessionId.getD "",
        timestamp := m.timestamp.getD "", type := m.type.getD "",
        contentLength := min content.length 100000,
        hasFiles := detectFileReferences content,
        hasTools := detectToolUsage m,
        hasErrors := detectErrors content,
        keywords := keywords, projectDir := projectDir,
        filename := filename, lineNumber := lineNumber }

/-- JS `Map.set` on an association list. -/
def mapSet (m : List (String × α)) (k : String) (v : α) : List (String × α) :=
  if m.any (fun p => p.1 == k) then
    m.map fun p => if p.1 == k then (p.1, v) else p
  else m ++ [(k, v)]

/-- Adding a uuid to the `Set` stored under `k` (keyword or session
map). -/
def setAdd (m : List (String × List String)) (k v : String) :
    List (String × List String) :=
  match m.find? (fun p => p.1 == k) with
  | some p =>
    if p.2.contains v then m
    else m.map fun q => if q.1 == k then (q.1, q.2 ++ [v]) else q
  | none => m ++ [(k, [v])]

/-- The mutable state of `IntelligentIndexer` relevant to `indexFile`,
plus the two per-file counters. -/
structure IndexState where
  index : List (String × MessageIndex)
  keywordMap : List (String × List String)
  sessionMap : List (String × List String)
  processedLines : Nat
  skippedLines : Nat
deriving DecidableEq

/-- `updateMappings`. -/
def updateMappings (st : IndexState) (idx : MessageIndex) : IndexState :=
  { st with
    keywordMap := idx.keywords.foldl (fun km kw => setAdd km kw idx.uuid)
      st.keywordMap,
    sessionMap := setAdd st.sessionMap idx.sessionId idx.uuid }

/-- `maxLinesPerFile` (`indexFile`): the per-file line ceiling. -/
def maxLinesPerFile : Nat := 5000

/-- `maxLineSizeBytes` (`indexFile`): the per-line byte ceiling. -/
def maxLineSizeBytes : Nat := 100000

/-- The lines `indexFile` counts in `skippedLines`: non-blank lines
that are byte-oversized, longer than the 500 KB JSON limit, malformed,
or structurally invalid. -/
def lineSkipped (parse : String → Option JsonMsg) (line : String) : Bool :=
  !(decide (jsTrim line = ""))
    && (decide (maxLineSizeBytes < utf8Len line)
      || decide (500000 < line.length)
      || (match parse line with
          | none => true
          | some m => !isValidMessage m))

/-- The `for await (const line of rl)` loop of `indexFile`.  `n` is
the number of lines already read (`lineNumber` is incremented at the
top); the loop breaks once the ceiling is exceeded.  `parse` is
`JSON.parse` (an external primitive): `none` models a parse error. -/
def indexLoop (parse : String → Option JsonMsg) (projectDir filename : String) :
    List String → Nat → IndexState → IndexState
  | [], _, st => st
  | line :: rest, n, st =>
    if maxLinesPerFile < n + 1 then st
    else if jsTrim line = "" then
      indexLoop parse projectDir filename rest (n + 1) st
    else if maxLineSizeBytes < utf8Len line then
      indexLoop parse projectDir filename rest (n + 1)
        { st with skippedLines := st.skippedLines + 1 }
    else if 500000 < line.length then
      indexLoop parse projectDir filename rest (n + 1)
        { st with skippedLines := st.skippedLines + 1 }
    else
      match parse line with
      | none =>
        indexLoop parse projectDir filename rest (n + 1)
          { st with skippedLines := st.skippedLines + 1 }
      | some m =>
        if isValidMessage m then
          match createMessageIndex m projectDir filename (n + 1) with
          | none => indexLoop parse projectDir filename rest (n + 1) st
          | some idx =>
            indexLoop parse projectDir filename rest (n + 1)
              { updateMappings
                  { st with index := mapSet st.index idx.uuid idx } idx with
                processedLines :=
                  (updateMappings
                    { st with index := mapSet st.index idx.uuid idx } idx).processedLines
                    + 1 }
        else
          indexLoop parse projectDir filename rest (n + 1)
            { st with skippedLines := st.skippedLines + 1 }

/-- The state `indexFile` starts a file with. -/
def emptyIndexState : IndexState := ⟨[], [], [], 0, 0⟩

/-- `indexFile` on the decoded line stream of one session file.  The
surrounding `try/catch` only logs; a stream failure leaves the state
accumulated so far, so the function is total. -/
def indexFile (parse : String → Option JsonMsg) (projectDir filename : String)
    (lines : List String) : IndexState :=
  indexLoop parse projectDir filename lines 0 emptyIndexState

end Indexer

/-- Modelled from the claim's words (C10): the rendering contributed by
one content block — recognized blocks are `text`, `tool_use` and
`tool_result`; an unrecognized block contributes the empty string. -/
def specBlockRendering : ContentItem → String
  | .text t => t
  | .toolUse name => "[Tool: " ++ name ++ "]"
  | .toolResult => "[Tool Result]"
  | .other => ""

/-- Modelled from the claim's words (C10): the content field itself
when it is a string; a space-joined and trimmed rendering of the
blocks when it is an array; the empty string in all other cases. -/
def extractContentFromMessageSpec (message : MessageBody) : String :=
  match message.content with
  | .str s => s
  | .arr items => jsTrim (jsJoin " " (items.map specBlockRendering))
  | .null => ""

/-- Environment for the C3 witness: the projects root is absent and
every read and parse rejects, as when `~/.claude/projects` does not
exist. -/
def c3env : Env :=
  { readdirRoot := .error (),
    statIsDir := fun _ => .error (),
    readdirProject := fun _ => .error (),
    parseJsonlFile := fun _ _ _ _ => .error (),
    now := 0, startOfToday := 0, startOfYesterday := 0,
    weekCutoff := 0, monthCutoff := 0 }

namespace SearchEngine
theorem dedupInv_step {processed seen} (m : ScoredMessage)
    (h : DedupInv processed seen) :
    DedupInv (processed ++ [m]) (dedupInsert seen m) := by
  obtain ⟨hkeys, hent, hcov⟩ := h
  unfold dedupInsert
  by_cases hmem : ∃ p ∈ seen, p.1 = sigOf m
  · rw [if_pos (by simpa [List.any_eq_true] using hmem)]
    have hkeyf : ∀ p : String × ScoredMessage,
        ((if p.1 = sigOf m ∧ p.2.finalScore < m.finalScore
          then (p.1, m) else p)).1 = p.1 := by
      intro p
      by_cases hc : p.1 = sigOf m ∧ p.2.finalScore < m.finalScore
      · rw [if_pos hc]
      · rw [if_neg hc]
    refine ⟨?_, ?_, ?_⟩
    · have heq : (seen.map fun p =>
          if p.1 = sigOf m ∧ p.2.finalScore < m.finalScore
          then (p.1, m) else p).map Prod.fst = seen.map Prod.fst := by
        rw [List.map_map]
        exact List.map_congr_left fun p _ => hkeyf p
      rw [heq]
      exact hkeys
    · intro p' hp'
      obtain ⟨p, hp, hfp⟩ := List.mem_map.mp hp'
      obtain ⟨hsig, hmemp, hmax⟩ := hent p hp
      by_cases hc : p.1 = sigOf m ∧ p.2.finalScore < m.finalScore
      · rw [if_pos hc] at hfp
        subst hfp
        refine ⟨hc.1, List.mem_append.mpr (Or.inr (by simp)), ?_⟩
        intro x hx hsx
        rcases List.mem_append.mp hx with hx | hx
        · exact le_of_lt (lt_of_le_of_lt (hmax x hx hsx) hc.2)
        · simp only [List.mem_singleton] at hx
          subst hx
          exact le_refl _
      · rw [if_neg hc] at hfp
        subst hfp
        refine ⟨hsig, List.mem_append.mpr (Or.inl hmemp), ?_⟩
        intro x hx hsx
        rcases List.mem_append.mp hx with hx | hx
        · exact hmax x hx hsx
        · simp only [List.mem_singleton] at hx
          subst hx
          exact le_of_not_lt fun hlt => hc ⟨hsx.symm, hlt⟩
    · intro x hx
      have hgen : ∀ p ∈ seen, p.1 = sigOf x →
          ∃ p' ∈ (seen.map fun p =>
            if p.1 = sigOf m ∧ p.2.finalScore < m.finalScore
            then (p.1, m) else p), p'.1 = sigOf x := by
        intro p hp hsig
        refine ⟨(if p.1 = sigOf m ∧ p.2.finalScore < m.finalScore
            then (p.1, m) else p), List.mem_map_of_mem _ hp, ?_⟩
        rw [hkeyf p]
        exact hsig
      rcases List.mem_append.mp hx with hx | hx
      · obtain ⟨p, hp, hsig⟩ := hcov x hx
        exact hgen p hp hsig
      · simp only [List.mem_singleton] at hx
        subst hx
        obtain ⟨p, hp, hsig⟩ := hmem
        exact hgen p hp hsig
  · have hno : ¬ (seen.any fun p => p.1 = sigOf m) = true := by
      simp only [List.any_eq_true, decide_eq_true_eq]
      exact hmem
    rw [if_neg hno]
    have hnotkey : sigOf m ∉ seen.map Prod.fst := by
      intro hk
      obtain ⟨p, hp, hfp⟩ := List.mem_map.mp hk
      exact hmem ⟨p, hp, hfp⟩
    refine ⟨?_, ?_, ?_⟩
    · rw [List.map_append, List.pairwise_append]
      refine ⟨hkeys, by simp, ?_⟩
      intro a ha b hb
      simp only [List.map_cons, List.map_nil, List.mem_singleton] at hb
      subst hb
      exact fun hab => hnotkey (hab ▸ ha)
    · intro p hp
      rcases List.mem_append.mp hp with hpol | hpnew
      · obtain ⟨hsig, hmemp, hmax⟩ := hent p hpol
        refine ⟨hsig, List.mem_append.mpr (Or.inl hmemp), ?_⟩
        intro x hx hsx
        rcases List.mem_append.mp hx with hxo | hxn
        · exact hmax x hxo hsx
        · simp only [List.mem_singleton] at hxn
          subst hxn
          exact absurd ⟨p, hpol, hsx.symm⟩ hmem
      · simp only [List.mem_singleton] at hpnew
        subst hpnew
        refine ⟨rfl, List.mem_append.mpr (Or.inr (by simp)), ?_⟩
        intro x hx hsx
        rcases List.mem_append.mp hx with hxo | hxn
        · obtain ⟨q, hq, hsig⟩ := hcov x hxo
          exact absurd ⟨q, hq, hsig.trans hsx⟩ hmem
        · simp only [List.mem_singleton] at hxn
          subst hxn
          exact le_refl _
    · intro x hx
      rcases List.mem_append.mp hx with hx | hx
      · obtain ⟨p, hp, hsig⟩ := hcov x hx
        exact ⟨p, List.mem_append.mpr (Or.inl hp), hsig⟩
      · simp only [List.mem_singleton] at hx
        subst hx
        exact ⟨(sigOf x, x), List.mem_append.mpr (Or.inr (by simp)), rfl⟩

theorem dedupInv_foldl :
    ∀ (msgs : List ScoredMessage) (processed : List ScoredMessage)
      (seen : List (String × ScoredMessage)),
      DedupInv processed seen →
      DedupInv (processed ++ msgs) (msgs.foldl dedupInsert seen)
  | [], processed, seen, h => by simpa using h
  | m :: rest, processed, seen, h => by
    have hstep := dedupInv_step m h
    have := dedupInv_foldl rest (processed ++ [m]) (dedupInsert seen m) hstep
    simpa using this

theorem dedupInv_nil : DedupInv [] [] := by
  refine ⟨by simp, by simp, by simp⟩

end SearchEngine

/-! ## C7 — deduplication keeps exactly one, maximal, candidate per
signature -/

/-- C7: for every candidate list, `intelligentDeduplicate` produces an
output in which no two kept results have identical content signatures,
every kept result is one of the candidates, and a kept result's
boosted (`finalScore`) score is maximal among all candidates sharing
its signature — in particular, of two candidates with one signature the
higher-scoring one is the one kept. -/
theorem intelligentDeduplicate_correct (messages : List ScoredMessage) :
    ((SearchEngine.intelligentDeduplicate messages).Pairwise
        fun a b => SearchEngine.sigOf a ≠ SearchEngine.sigOf b)
      ∧ ∀ m ∈ SearchEngine.intelligentDeduplicate messages,
          m ∈ messages ∧ ∀ m2 ∈ messages,
            SearchEngine.sigOf m2 = SearchEngine.sigOf m →
              m2.finalScore ≤ m.finalScore := by
  have hinv := SearchEngine.dedupInv_foldl messages [] [] SearchEngine.dedupInv_nil
  simp only [List.nil_append] at hinv
  obtain ⟨hkeys, hent, _⟩ := hinv
  constructor
  · unfold SearchEngine.intelligentDeduplicate
    rw [List.pairwise_map]
    have hkeys' : (messages.foldl SearchEngine.dedupInsert []).Pairwise
        fun p q => p.1 ≠ q.1 := (List.pairwise_map.mp hkeys)
    apply hkeys'.imp_of_mem
    intro p q hp hq hne
    rw [(hent p hp).1, (hent q hq).1] at hne
    exact hne
  · intro m hm
    unfold SearchEngine.intelligentDeduplicate at hm
    obtain ⟨p, hp, hfp⟩ := List.mem_map.mp hm
    subst hfp
    obtain ⟨hsig, hmem, hmax⟩ := hent p hp
    exact ⟨hmem, fun m2 hm2 hs => hmax m2 hm2 (hs.trans hsig.symm)⟩

/-- Witness for C7: of two concrete duplicates the higher-scoring one
is kept and dominates the other. -/
theorem intelligentDeduplicate_correct_witness :
    c7high ∈ SearchEngine.intelligentDeduplicate [c7low, c7high]
      ∧ c7low.finalScore ≤ c7high.finalScore := by
  have h := intelligentDeduplicate_correct [c7low, c7high]
  have hmem : c7high ∈ SearchEngine.intelligentDeduplicate [c7low, c7high] := by
    decide
  exact ⟨hmem, (h.2 c7high hmem).2 c7low (by decide) (by decide)⟩

namespace SearchEngine

/-! ## Lemmas about the final ordering -/

/-- When the incoming message's score is dominated by everything
already in the `seen` map, `dedupInsert` either leaves the map
untouched or appends at the end (no in-place replacement fires). -/
theorem dedupInsert_of_max (seen : List (String × ScoredMessage))
    (m : ScoredMessage) (h : ∀ p ∈ seen, m.finalScore ≤ p.2.finalScore) :
    dedupInsert seen m = seen ∨ dedupInsert seen m = seen ++ [(sigOf m, m)] := by
  unfold dedupInsert
  by_cases hmem : (seen.any fun p => p.1 = sigOf m) = true
  · left
    rw [if_pos hmem]
    have heq : (seen.map fun p =>
        if p.1 = sigOf m ∧ p.2.finalScore < m.finalScore
        then (p.1, m) else p) = seen.map id := by
      apply List.map_congr_left
      intro p hp
      rw [if_neg fun hc => absurd hc.2 (not_lt_of_le (h p hp))]
      rfl
    rw [heq, List.map_id]
  · right
    rw [if_neg hmem]

/-- Folding `dedupInsert` over a sorted list (with a sorted, dominating
`seen` map) yields a map whose values are sorted: on sorted input the
deduplication never replaces, so it only selects a sublist. -/
theorem dedup_sorted_aux :
    ∀ (msgs : List ScoredMessage) (seen : List (String × ScoredMessage)),
      List.Sorted scoreGe (seen.map Prod.snd) →
      (∀ p ∈ seen, ∀ x ∈ msgs, scoreGe p.2 x) →
      List.Sorted scoreGe msgs →
      List.Sorted scoreGe ((msgs.foldl dedupInsert seen).map Prod.snd)
  | [], _, h1, _, _ => h1
  | m :: rest, seen, h1, h2, h3 => by
    simp only [List.foldl_cons]
    have hmax : ∀ p ∈ seen, m.finalScore ≤ p.2.finalScore :=
      fun p hp => h2 p hp m (List.mem_cons_self _ _)
    rcases dedupInsert_of_max seen m hmax with heq | heq <;> rw [heq]
    · exact dedup_sorted_aux rest seen h1
        (fun p hp x hx => h2 p hp x (List.mem_cons_of_mem _ hx)) h3.of_cons
    · apply dedup_sorted_aux rest
      · rw [List.map_append]
        rw [show (List.Sorted scoreGe (List.map Prod.snd seen
            ++ List.map Prod.snd [(sigOf m, m)]))
          = List.Pairwise scoreGe (List.map Prod.snd seen
            ++ List.map Prod.snd [(sigOf m, m)]) from rfl]
        rw [List.pairwise_append]
        refine ⟨h1, by simp, ?_⟩
        intro a ha b hb
        simp only [List.map_cons, List.map_nil, List.mem_singleton] at hb
        subst hb
        obtain ⟨p, hp, hfp⟩ := List.mem_map.mp ha
        subst hfp
        exact hmax p hp
      · intro p hp x hx
        rcases List.mem_append.mp hp with hpo | hpn
        · exact h2 p hpo x (List.mem_cons_of_mem _ hx)
        · simp only [List.mem_singleton] at hpn
          subst hpn
          exact List.rel_of_sorted_cons h3 x hx
      · exact h3.of_cons

/-- The output of `selectTopRelevantResults` is sorted by boosted score
descending (scoring, stable sort, deduplication, truncation). -/
theorem selectTop_sorted (candidates : List CompactMessage) (q : String)
    (analysis : QueryAnalysis) (now : Int) (limit : Nat) :
    List.Sorted scoreGe (selectTopRelevantResults candidates q analysis now limit) := by
  simp only [selectTopRelevantResults, intelligentDeduplicate]
  apply List.Pairwise.sublist (List.take_sublist _ _)
  apply dedup_sorted_aux _ [] (by simp) (by simp)
  exact List.sorted_insertionSort scoreGe _

end SearchEngine
namespace SearchEngine

/-! ## Degradation lemmas for C3 -/

theorem findProjectDirectories_root_error (env : Env)
    (h : env.readdirRoot = .error ()) :
    Utils.findProjectDirectories env = ([], [Access.listProjects]) := by
  unfold Utils.findProjectDirectories
  rw [h]

theorem selectTop_nil (q : String) (a : QueryAnalysis) (now : Int) (limit : Nat) :
    selectTopRelevantResults [] q a now limit = [] := by
  simp [selectTopRelevantResults, intelligentDeduplicate]

theorem gather_nil_dirs (env : Env) (cache : Cache) (q : String)
    (a : QueryAnalysis) (tf : Int → Bool) (t : Nat) :
    gatherRelevantCandidates env cache [] q a tf t = ([], cache, []) := by
  simp [gatherRelevantCandidates, gatherLoop, aggLoop]

theorem processJsonlFile_parse_fail (env : Env)
    (hfail : ∀ d f q2 tfil, env.parseJsonlFile d f q2 tfil = .error ())
    (dir f q : String) (tf : Int → Bool) :
    processJsonlFile env [] dir f q tf = (.error (), [], [.readFile dir f]) := by
  unfold processJsonlFile cacheLookup
  simp only [List.find?_nil, Option.map_none']
  rw [hfail]

theorem ppfLoop_parse_fail (env : Env)
    (hfail : ∀ d f q2 tfil, env.parseJsonlFile d f q2 tfil = .error ())
    (dir q : String) (a : QueryAnalysis) (tf : Int → Bool) (pf t : Nat) :
    ∀ (files : List String) (log : List Access),
      (ppfLoop env dir q a tf pf t files [] [] log).1 = []
        ∧ (ppfLoop env dir q a tf pf t files [] [] log).2.1 = []
  | [], _ => ⟨rfl, rfl⟩
  | f :: rest, log => by
    simp only [ppfLoop, processJsonlFile_parse_fail env hfail dir f q tf]
    constructor <;> trivial

theorem processProjectFocused_parse_fail (env : Env)
    (hfail : ∀ d f q2 tfil, env.parseJsonlFile d f q2 tfil = .error ())
    (dir q : String) (a : QueryAnalysis) (tf : Int → Bool) (t : Nat) :
    (processProjectFocused env [] dir q a tf t).1 = []
      ∧ (processProjectFocused env [] dir q a tf t).2.1 = [] := by
  unfold processProjectFocused
  exact ppfLoop_parse_fail env hfail dir q a tf _ t _ _

theorem gatherLoop_parse_fail (env : Env)
    (hfail : ∀ d f q2 tfil, env.parseJsonlFile d f q2 tfil = .error ())
    (q : String) (a : QueryAnalysis) (tf : Int → Bool) (pp : Nat) :
    ∀ (dirs : List String) (results : List (List CompactMessage))
      (log : List Access),
      (∀ r ∈ results, r = ([] : List CompactMessage)) →
      (∀ r ∈ (gatherLoop env q a tf pp dirs [] results log).1, r = [])
        ∧ (gatherLoop env q a tf pp dirs [] results log).2.1 = []
  | [], results, log, hr => ⟨hr, rfl⟩
  | dir :: rest, results, log, hr => by
    have hp := processProjectFocused_parse_fail env hfail dir q a tf pp
    simp only [gatherLoop, hp.1, hp.2]
    apply gatherLoop_parse_fail env hfail q a tf pp rest _ _
    intro r hrm
    rcases List.mem_append.mp hrm with hrm | hrm
    · exact hr r hrm
    · simp only [List.mem_singleton] at hrm
      exact hrm

theorem aggLoop_all_nil (q : String) (a : QueryAnalysis) (t : Nat) :
    ∀ (results : List (List CompactMessage)) (acc : List CompactMessage),
      (∀ r ∈ results, r = []) → aggLoop q a t results acc = acc
  | [], _, _ => rfl
  | r :: rest, acc, hr => by
    have h0 : r = [] := hr r (List.mem_cons_self _ _)
    subst h0
    simp only [aggLoop, List.filter_nil, List.append_nil]
    split
    · rfl
    · exact aggLoop_all_nil q a t rest acc fun x hx =>
        hr x (List.mem_cons_of_mem _ hx)

theorem gather_parse_fail (env : Env)
    (hfail : ∀ d f q2 tfil, env.parseJsonlFile d f q2 tfil = .error ())
    (dirs : List String) (q : String) (a : QueryAnalysis) (tf : Int → Bool)
    (t : Nat) :
    (gatherRelevantCandidates env [] dirs q a tf t).1 = []
      ∧ (gatherRelevantCandidates env [] dirs q a tf t).2.1 = [] := by
  unfold gatherRelevantCandidates
  have hg := gatherLoop_parse_fail env hfail q a tf
    (if dirs.length = 0 then 0 else (t + dirs.length - 1) / dirs.length)
    dirs [] [] (fun r hr => absurd hr (List.not_mem_nil r))
  exact ⟨aggLoop_all_nil q a t _ [] hg.1, hg.2⟩

theorem gather_parse_fail_fst (env : Env)
    (hfail : ∀ d f q2 tfil, env.parseJsonlFile d f q2 tfil = .error ())
    (q : String) (a : QueryAnalysis) (tf : Int → Bool) (t : Nat) :
    ∀ dirs : List String, (gatherRelevantCandidates env [] dirs q a tf t).1 = [] :=
  fun dirs => (gather_parse_fail env hfail dirs q a tf t).1

theorem searchConversations_root_error (env : Env) (cache : Cache)
    (query : String) (pf tf : Option String) (limit : Nat)
    (h : env.readdirRoot = .error ()) :
    (searchConversations env cache query pf tf limit).1.messages = []
      ∧ (searchConversations env cache query pf tf limit).1.totalResults = 0 := by
  simp only [searchConversations, performOptimizedSearch,
    findProjectDirectories_root_error env h]
  split
  · exact ⟨rfl, rfl⟩
  · cases pf with
    | none => simp [gather_nil_dirs, selectTop_nil]
    | some s => simp [gather_nil_dirs, selectTop_nil]

theorem searchConversations_parse_fail (env : Env) (query : String)
    (pf tf : Option String) (limit : Nat)
    (hfail : ∀ d f q2 tfil, env.parseJsonlFile d f q2 tfil = .error ()) :
    (searchConversations env [] query pf tf limit).1.messages = []
      ∧ (searchConversations env [] query pf tf limit).1.totalResults = 0 := by
  by_cases hq : query.length < 3
  · simp [searchConversations, performOptimizedSearch, hq]
  · have hfst := gather_parse_fail_fst env hfail query (analyzeQueryIntent query)
      (Utils.getTimeRangeFilter env tf) (limit * 2)
    simp [searchConversations, performOptimizedSearch, hq, hfst, selectTop_nil]

theorem fileContextOfFile_parse_fail (env : Env)
    (hfail : ∀ d f q2 tfil, env.parseJsonlFile d f q2 tfil = .error ())
    (fp : String) (limit : Nat) (dir f : String) :
    fileContextOfFile env fp limit dir f = .error () := by
  unfold fileContextOfFile
  rw [hfail]

theorem foldl_append_map_nil (f : α → List β) :
    ∀ (ls : List α) (acc : List β), (∀ x ∈ ls, f x = []) →
      (ls.map f).foldl (fun a l => a ++ l) acc = acc
  | [], _, _ => rfl
  | x :: rest, acc, h => by
    simp only [List.map_cons, List.foldl_cons, h x (List.mem_cons_self _ _),
      List.append_nil]
    exact foldl_append_map_nil f rest acc fun y hy =>
      h y (List.mem_cons_of_mem _ hy)

theorem findFileContext_parse_fail (env : Env)
    (hfail : ∀ d f q2 tfil, env.parseJsonlFile d f q2 tfil = .error ())
    (fp : String) (limit : Nat) :
    findFileContext env fp limit = [] := by
  unfold findFileContext
  have hall : ∀ dir : String,
      (allSettled (((Utils.findJsonlFiles env dir).1.take 10).map fun file =>
        fileContextOfFile env fp limit dir file)).filterMap id = [] := by
    intro dir
    induction (Utils.findJsonlFiles env dir).1.take 10 with
    | nil => rfl
    | cons f rest ih =>
      simp only [List.map_cons, allSettled, List.filterMap_cons,
        fileContextOfFile_parse_fail env hfail fp limit dir f] at ih ⊢
      exact ih
  dsimp only
  rw [foldl_append_map_nil _ _ _ fun dir _ => hall dir]
  rfl

theorem fsqFilesLoop_parse_fail (env : Env)
    (hfail : ∀ d f q2 tfil, env.parseJsonlFile d f q2 tfil = .error ())
    (tq dir : String) (limit : Nat) :
    ∀ files : List String,
      fsqFilesLoop env tq dir limit files [] = .ok []
        ∨ fsqFilesLoop env tq dir limit files [] = .error ()
  | [] => Or.inl rfl
  | f :: rest => by
    right
    simp only [fsqFilesLoop, fsqProcessFile, hfail]

theorem fsqDirsLoop_parse_fail (env : Env)
    (hfail : ∀ d f q2 tfil, env.parseJsonlFile d f q2 tfil = .error ())
    (tq : String) (limit : Nat) :
    ∀ dirs : List String,
      fsqDirsLoop env tq limit dirs [] = .ok []
        ∨ fsqDirsLoop env tq limit dirs [] = .error ()
  | [] => Or.inl rfl
  | dir :: rest => by
    simp only [fsqDirsLoop]
    rcases fsqFilesLoop_parse_fail env hfail tq dir limit
        ((Utils.findJsonlFiles env dir).1.take 5) with heq | heq <;>
      simp only [heq]
    · by_cases h4 : limit * 4 ≤ (0 : Nat)
      · simp only [List.length_nil, if_pos h4]
        exact Or.inl trivial
      · simp only [List.length_nil, if_neg h4]
        exact fsqDirsLoop_parse_fail env hfail tq limit rest
    · exact Or.inr trivial

theorem findSimilarQueries_parse_fail (env : Env)
    (hfail : ∀ d f q2 tfil, env.parseJsonlFile d f q2 tfil = .error ())
    (tq : String) (limit : Nat) :
    findSimilarQueries env tq limit = [] := by
  unfold findSimilarQueries
  rcases fsqDirsLoop_parse_fail env hfail tq limit
      ((Utils.findProjectDirectories env).1.take 8) with heq | heq <;>
    simp [heq]

theorem gesProjectMap_parse_fail (env : Env)
    (hfail : ∀ d f q2 tfil, env.parseJsonlFile d f q2 tfil = .error ())
    (ep dir : String) :
    gesProjectMap env ep dir = [] := by
  unfold gesProjectMap
  induction (Utils.findJsonlFiles env dir).1.take 6 with
  | nil => rfl
  | cons f rest ih =>
    simp only [List.foldl_cons, hfail] at ih ⊢
    exact ih

theorem getErrorSolutions_parse_fail (env : Env)
    (hfail : ∀ d f q2 tfil, env.parseJsonlFile d f q2 tfil = .error ())
    (ep : String) (limit : Nat) :
    getErrorSolutions env ep limit = [] := by
  unfold getErrorSolutions
  have hmap : ((Utils.findProjectDirectories env).1.take 12).foldl
      (fun (em : List (String × List CompactMessage)) dir =>
        (gesProjectMap env ep dir).foldl (fun em p => mapAppend em p.1 p.2) em)
      [] = [] := by
    induction (Utils.findProjectDirectories env).1.take 12 with
    | nil => rfl
    | cons dir rest ih =>
      simp only [List.foldl_cons, gesProjectMap_parse_fail env hfail ep dir,
        List.foldl_nil] at ih ⊢
      exact ih
  rw [hmap]
  simp

theorem tpProjectMaps_parse_fail (env : Env)
    (hfail : ∀ d f q2 tfil, env.parseJsonlFile d f q2 tfil = .error ())
    (tn : Option String) (dir : String) :
    tpProjectMaps env tn dir = ([], []) := by
  unfold tpProjectMaps
  induction (Utils.findJsonlFiles env dir).1.take 8 with
  | nil => rfl
  | cons f rest ih =>
    simp only [List.foldl_cons, hfail] at ih ⊢
    exact ih

theorem getToolPatterns_parse_fail (env : Env)
    (hfail : ∀ d f q2 tfil, env.parseJsonlFile d f q2 tfil = .error ())
    (tn : Option String) (limit : Nat) :
    getToolPatterns env tn limit = [] := by
  unfold getToolPatterns
  have hagg : ((Utils.findProjectDirectories env).1.take 15).foldl
      (fun (acc : List (String × List CompactMessage)
          × List (String × List CompactMessage)) dir =>
        let pm := tpProjectMaps env tn dir
        (pm.1.foldl (fun tm p => mapAppend tm p.1 p.2) acc.1,
         pm.2.foldl (fun wm p => mapAppend wm p.1 p.2) acc.2))
      ([], []) = ([], []) := by
    induction (Utils.findProjectDirectories env).1.take 15 with
    | nil => rfl
    | cons dir rest ih =>
      simp only [List.foldl_cons, tpProjectMaps_parse_fail env hfail tn dir,
        List.foldl_nil] at ih ⊢
      exact ih
  rw [hagg]
  simp

theorem getRecentSessions_parse_fail (env : Env)
    (hfail : ∀ d f q2 tfil, env.parseJsonlFile d f q2 tfil = .error ())
    (limit : Nat) :
    getRecentSessions env limit = [] := by
  unfold getRecentSessions
  have hfile : ∀ (dir dp pn : String) (files : List String),
      files.foldl
        (fun (facc : List SessionSummary) file =>
          match sessionOfFile env dir file dp pn with
          | .error _ => facc
          | .ok none => facc
          | .ok (some s) => facc ++ [s])
        [] = [] := by
    intro dir dp pn files
    induction files with
    | nil => rfl
    | cons f rest ih =>
      simp only [List.foldl_cons, sessionOfFile, hfail] at ih ⊢
      exact ih
  have hsess : ((Utils.findProjectDirectories env).1.take 10).foldl
      (fun (acc : List SessionSummary) projectDir =>
        let decodedPath := Utils.decodeProjectPath projectDir
        let pn0 := ((jsSplitChar '/' decodedPath).getLast?).getD ""
        let projectName := if pn0 = "" then "unknown" else pn0
        acc ++ ((Utils.findJsonlFiles env projectDir).1.take 5).foldl
          (fun facc file =>
            match sessionOfFile env projectDir file decodedPath projectName with
            | .error _ => facc
            | .ok none => facc
            | .ok (some s) => facc ++ [s])
          [])
      [] = [] := by
    induction (Utils.findProjectDirectories env).1.take 10 with
    | nil => rfl
    | cons dir rest ih =>
      simp only [List.foldl_cons, hfile, List.append_nil] at ih ⊢
      exact ih
  rw [hsess]
  simp

/-! Root-absence degradation for the five views. -/

theorem findFileContext_root_error (env : Env) (fp : String) (limit : Nat)
    (h : env.readdirRoot = .error ()) :
    findFileContext env fp limit = [] := by
  simp [findFileContext, findProjectDirectories_root_error env h]

theorem findSimilarQueries_root_error (env : Env) (tq : String) (limit : Nat)
    (h : env.readdirRoot = .error ()) :
    findSimilarQueries env tq limit = [] := by
  simp [findSimilarQueries, findProjectDirectories_root_error env h, fsqDirsLoop]

theorem getErrorSolutions_root_error (env : Env) (ep : String) (limit : Nat)
    (h : env.readdirRoot = .error ()) :
    getErrorSolutions env ep limit = [] := by
  simp [getErrorSolutions, findProjectDirectories_root_error env h]

theorem getToolPatterns_root_error (env : Env) (tn : Option String) (limit : Nat)
    (h : env.readdirRoot = .error ()) :
    getToolPatterns env tn limit = [] := by
  simp [getToolPatterns, findProjectDirectories_root_error env h]

theorem getRecentSessions_root_error (env : Env) (limit : Nat)
    (h : env.readdirRoot = .error ()) :
    getRecentSessions env limit = [] := by
  simp [getRecentSessions, findProjectDirectories_root_error env h]

end SearchEngine

/-! ## C1, C2, C5, C6 — top-level search properties -/

/-- C1 (amended): every result list of `searchConversations` is sorted
by boosted score descending; equal-score ties keep the candidate
(stable-sort) order, which is *not* the timestamp order claimed. -/
theorem searchConversations_sorted_by_boosted_score (env : Env)
    (cache : SearchEngine.Cache) (query : String) (pf tf : Option String)
    (limit : Nat) :
    List.Sorted SearchEngine.scoreGe
      ((SearchEngine.searchConversations env cache query pf tf limit).1.messages) := by
  simp only [SearchEngine.searchConversations, SearchEngine.performOptimizedSearch]
  split
  · simp
  · exact (SearchEngine.selectTop_sorted _ _ _ _ _).filter _

/-- C1 (counterexample): for the query `"hello"` against `c1env`,
`searchConversations` returns two adjacent results with equal boosted
scores whose timestamps are in *ascending* order, violating the
claimed tie-break. -/
theorem searchConversations_tiebreak_cex :
    ((SearchEngine.searchConversations c1env [] "hello" none none 15).1.messages).length = 2
      ∧ ¬ claimOrdered
          (SearchEngine.searchConversations c1env [] "hello" none none 15).1.messages := by
  decide

/-- C2: `searchConversations` returns at most `limit` messages, for
every environment, cache state, query, filter and limit. -/
theorem searchConversations_at_most_limit (env : Env)
    (cache : SearchEngine.Cache) (query : String) (pf tf : Option String)
    (limit : Nat) :
    ((SearchEngine.searchConversations env cache query pf tf limit).1.messages).length
      ≤ limit := by
  simp only [SearchEngine.searchConversations, SearchEngine.performOptimizedSearch]
  split
  · simp
  · refine le_trans (List.length_filter_le _ _) ?_
    simp only [SearchEngine.selectTopRelevantResults]
    exact List.length_take_le _ _

/-! ### C6 — short queries -/

/-- Helper: the `stat` loop only logs `statEntry` accesses. -/
theorem statLoop_log_no_file_access (env : Env) :
    ∀ entries, ∀ a ∈ (Utils.statLoop env entries).2, a.isFileAccess = false
  | [] => by simp [Utils.statLoop]
  | e :: rest => by
    intro a ha
    unfold Utils.statLoop at ha
    cases h : env.statIsDir e with
    | error u =>
      rw [h] at ha
      simp only [List.mem_singleton] at ha
      subst ha
      rfl
    | ok b =>
      rw [h] at ha
      simp only [List.mem_cons] at ha
      rcases ha with ha | ha
      · subst ha
        rfl
      · exact statLoop_log_no_file_access env rest a ha

/-- Helper: `findProjectDirectories` logs only the root listing and
per-entry stats — never a session-file listing or read. -/
theorem findProjectDirectories_log_no_file_access (env : Env) :
    ∀ a ∈ (Utils.findProjectDirectories env).2, a.isFileAccess = false := by
  intro a ha
  unfold Utils.findProjectDirectories at ha
  cases h : env.readdirRoot with
  | error u =>
    rw [h] at ha
    simp only [List.mem_singleton] at ha
    subst ha
    rfl
  | ok entries =>
    rw [h] at ha
    simp only [List.mem_cons] at ha
    rcases ha with ha | ha
    · subst ha
      rfl
    · exact statLoop_log_no_file_access env entries a ha

/-- C6 (amended): a query shorter than 3 characters yields an empty
result with `totalResults = 0`, and the only filesystem activity is
the project-directory enumeration (root listing plus per-entry stats)
performed *before* the length check — no session file is listed or
read. -/
theorem searchConversations_short_query (env : Env) (cache : SearchEngine.Cache)
    (query : String) (pf tf : Option String) (limit : Nat)
    (h : query.length < 3) :
    (SearchEngine.searchConversations env cache query pf tf limit).1.messages = []
      ∧ (SearchEngine.searchConversations env cache query pf tf limit).1.totalResults = 0
      ∧ (SearchEngine.searchConversations env cache query pf tf limit).2.2
          = (Utils.findProjectDirectories env).2
      ∧ ∀ a ∈ (SearchEngine.searchConversations env cache query pf tf limit).2.2,
          a.isFileAccess = false := by
  simp only [SearchEngine.searchConversations, SearchEngine.performOptimizedSearch,
    if_pos h]
  exact ⟨by trivial, by trivial, by trivial,
    findProjectDirectories_log_no_file_access env⟩

/-- Witness for C6 (amended) at the concrete query `"ab"`. -/
theorem searchConversations_short_query_witness :
    ("ab".length < 3)
      ∧ ((SearchEngine.searchConversations c6env [] "ab" none none 15).1.messages = []
        ∧ (SearchEngine.searchConversations c6env [] "ab" none none 15).1.totalResults = 0
        ∧ (SearchEngine.searchConversations c6env [] "ab" none none 15).2.2
            = (Utils.findProjectDirectories c6env).2
        ∧ ∀ a ∈ (SearchEngine.searchConversations c6env [] "ab" none none 15).2.2,
            a.isFileAccess = false) :=
  ⟨by decide, searchConversations_short_query c6env [] "ab" none none 15 (by decide)⟩

/-- C6 (counterexample): on the short query `"ab"` the engine *does*
perform filesystem accesses (the root listing and a stat), refuting
the claim that no file or directory access is performed. -/
theorem searchConversations_short_query_access_cex :
    (SearchEngine.searchConversations c6env [] "ab" none none 15).2.2
        = [Access.listProjects, Access.statEntry "p1"]
      ∧ (SearchEngine.searchConversations c6env [] "ab" none none 15).2.2 ≠ [] := by
  decide

/-! ### C5 — relevance scores are cached across queries -/

/-- C5 (code bug): `processJsonlFile` caches parsed batches under the
key `projectDir/file` only.  Searching `"docker"` first and then
`"kubernetes"` on the same file returns, for the second query, the
batch scored for the *first* query — not what the parser would produce
for `"kubernetes"`. -/
theorem processJsonlFile_cache_reuses_scores :
    (SearchEngine.processJsonlFile c5env
        (SearchEngine.processJsonlFile c5env [] "p" "f.jsonl" "docker"
          (fun _ => true)).2.1
        "p" "f.jsonl" "kubernetes" (fun _ => true)).1
      = .ok [c5msg 5]
      ∧ c5env.parseJsonlFile "p" "f.jsonl" (some "kubernetes") (fun _ => true)
          = .ok [c5msg 1]
      ∧ c5msg 5 ≠ c5msg 1 := by
  decide

namespace Indexer
/-- Once the line counter has reached the ceiling, the loop does
nothing. -/
theorem indexLoop_past_ceiling (parse : String → Option JsonMsg) (pd fn : String) :
    ∀ (lines : List String) (n : Nat) (st : IndexState),
      maxLinesPerFile ≤ n →
      indexLoop parse pd fn lines n st = st
  | [], _, _, _ => rfl
  | _ :: _, n, st, h => by
    simp only [indexLoop]
    rw [if_pos (by omega)]

/-- Lines past the ceiling are irrelevant: the loop on `l1 ++ l2`
equals the loop on `l1` whenever `l1` already reaches the ceiling. -/
theorem indexLoop_append_ceiling (parse : String → Option JsonMsg) (pd fn : String) :
    ∀ (l1 l2 : List String) (n : Nat) (st : IndexState),
      maxLinesPerFile ≤ n + l1.length →
      indexLoop parse pd fn (l1 ++ l2) n st = indexLoop parse pd fn l1 n st
  | [], l2, n, st, h => by
    simp only [List.nil_append]
    exact indexLoop_past_ceiling parse pd fn l2 n st (by simpa using h)
  | line :: l1, l2, n, st, h => by
    have IH : ∀ st2 : IndexState, indexLoop parse pd fn (l1 ++ l2) (n + 1) st2
        = indexLoop parse pd fn l1 (n + 1) st2 := fun st2 =>
      indexLoop_append_ceiling parse pd fn l1 l2 (n + 1) st2 (by
        simp only [List.length_cons] at h
        omega)
    simp only [List.cons_append, indexLoop]
    split_ifs <;> try rfl
    all_goals try exact IH _
    cases hp : parse line with
    | none => exact IH _
    | some m =>
      dsimp only
      split_ifs with hv
      · cases hc : createMessageIndex m pd fn (n + 1) with
        | none => exact IH _
        | some idx => exact IH _
      · exact IH _

/-- Below the ceiling, the loop's skipped-line counter counts exactly
the `lineSkipped` lines. -/
theorem indexLoop_skipped (parse : String → Option JsonMsg) (pd fn : String) :
    ∀ (lines : List String) (n : Nat) (st : IndexState),
      n + lines.length ≤ maxLinesPerFile →
      (indexLoop parse pd fn lines n st).skippedLines
        = st.skippedLines + (lines.filter (lineSkipped parse)).length
  | [], _, _, _ => by simp [indexLoop]
  | line :: rest, n, st, h => by
    have hlen : n + 1 + rest.length ≤ maxLinesPerFile := by
      simp only [List.length_cons] at h
      omega
    have hbreak : ¬ maxLinesPerFile < n + 1 := by
      simp only [List.length_cons] at h
      omega
    have IH : ∀ st2 : IndexState,
        (indexLoop parse pd fn rest (n + 1) st2).skippedLines
          = st2.skippedLines + (rest.filter (lineSkipped parse)).length :=
      fun st2 => indexLoop_skipped parse pd fn rest (n + 1) st2 hlen
    simp only [indexLoop]
    rw [if_neg hbreak]
    by_cases hblank : jsTrim line = ""
    · rw [if_pos hblank, IH st]
      have hsk : lineSkipped parse line = false := by
        simp [lineSkipped, hblank]
      simp [List.filter_cons, hsk]
    · rw [if_neg hblank]
      by_cases hbytes : maxLineSizeBytes < utf8Len line
      · rw [if_pos hbytes, IH _]
        have hsk : lineSkipped parse line = true := by
          simp [lineSkipped, hblank, hbytes]
        simp only [List.filter_cons, hsk, if_true, List.length_cons]
        omega
      · rw [if_neg hbytes]
        by_cases hjson : 500000 < line.length
        · rw [if_pos hjson, IH _]
          have hsk : lineSkipped parse line = true := by
            simp [lineSkipped, hblank, hjson]
          simp only [List.filter_cons, hsk, if_true, List.length_cons]
          omega
        · rw [if_neg hjson]
          cases hp : parse line with
          | none =>
            dsimp only
            rw [IH _]
            have hsk : lineSkipped parse line = true := by
              simp [lineSkipped, hblank, hbytes, hjson, hp]
            simp only [List.filter_cons, hsk, if_true, List.length_cons]
            omega
          | some m =>
            dsimp only
            split_ifs with hv
            · have hsk : lineSkipped parse line = false := by
                simp [lineSkipped, hblank, hbytes, hjson, hp, hv]
              cases hc : createMessageIndex m pd fn (n + 1) with
              | none =>
                rw [IH _]
                simp [List.filter_cons, hsk]
              | some idx =>
                rw [IH _]
                simp [List.filter_cons, hsk, updateMappings]
            · rw [IH _]
              have hsk : lineSkipped parse line = true := by
                simp [lineSkipped, hblank, hbytes, hjson, hp, hv]
              simp only [List.filter_cons, hsk, if_true, List.length_cons]
              omega

end Indexer

/-! ## C9 — the per-file line ceiling -/

/-- C9 (amended): on a file with more lines than the ceiling,
`indexFile` processes only the first `maxLinesPerFile` lines — its
entire resulting state equals the state computed on the truncated
stream — it returns (it is a total function; the `catch` only logs),
and its skipped-line count is exactly the number of non-blank
byte-oversized/oversized/malformed/invalid lines *within* the ceiling;
lines beyond the ceiling are dropped without being counted. -/
theorem indexFile_stops_at_ceiling (parse : String → Option Indexer.JsonMsg)
    (pd fn : String) (lines : List String)
    (h : Indexer.maxLinesPerFile < lines.length) :
    Indexer.indexFile parse pd fn lines
        = Indexer.indexFile parse pd fn (lines.take Indexer.maxLinesPerFile)
      ∧ (Indexer.indexFile parse pd fn lines).skippedLines
        = ((lines.take Indexer.maxLinesPerFile).filter
            (Indexer.lineSkipped parse)).length := by
  have hlen : (lines.take Indexer.maxLinesPerFile).length
      = Indexer.maxLinesPerFile := by
    rw [List.length_take]
    omega
  have htrunc : Indexer.indexFile parse pd fn lines
      = Indexer.indexFile parse pd fn (lines.take Indexer.maxLinesPerFile) := by
    conv_lhs => rw [show lines
      = lines.take Indexer.maxLinesPerFile ++ lines.drop Indexer.maxLinesPerFile
      from (List.take_append_drop _ _).symm]
    unfold Indexer.indexFile
    exact Indexer.indexLoop_append_ceiling parse pd fn _ _ 0 _ (by omega)
  refine ⟨htrunc, ?_⟩
  rw [htrunc]
  unfold Indexer.indexFile
  rw [Indexer.indexLoop_skipped parse pd fn _ 0 _ (by omega)]
  simp [Indexer.emptyIndexState]

/-- Witness for C9 (amended) on a concrete 5001-line stream whose
lines are all unparseable. -/
theorem indexFile_stops_at_ceiling_witness :
    (Indexer.maxLinesPerFile < (List.replicate 5001 "x").length)
      ∧ (Indexer.indexFile (fun _ => none) "p" "f.jsonl" (List.replicate 5001 "x")
          = Indexer.indexFile (fun _ => none) "p" "f.jsonl"
              ((List.replicate 5001 "x").take Indexer.maxLinesPerFile)
        ∧ (Indexer.indexFile (fun _ => none) "p" "f.jsonl"
              (List.replicate 5001 "x")).skippedLines
          = (((List.replicate 5001 "x").take Indexer.maxLinesPerFile).filter
              (Indexer.lineSkipped fun _ => none)).length) :=
  ⟨by simp only [List.length_replicate, Indexer.maxLinesPerFile]; omega,
    indexFile_stops_at_ceiling (fun _ => none) "p" "f.jsonl" _
      (by simp only [List.length_replicate, Indexer.maxLinesPerFile]; omega)⟩

/-- C9 (counterexample): a 5001-line file each of whose lines is
non-blank and unparseable.  Every line is a skippable line, and one of
them exceeds the ceiling, yet the reported skipped count is 5000 — the
line beyond the ceiling is *not* counted, contradicting the claim that
lines exceeding the ceiling are counted in the skipped count. -/
theorem indexFile_ceiling_skip_count_cex :
    (Indexer.indexFile (fun _ => none) "p" "f.jsonl"
        (List.replicate 5001 "x")).skippedLines = 5000
      ∧ 5000 < (List.replicate 5001 "x").length
      ∧ Indexer.lineSkipped (fun _ => none) "x" = true := by
  have hskip : Indexer.lineSkipped (fun _ => none) "x" = true := by decide
  have hcount : ∀ k : Nat,
      ((List.replicate k "x").filter (Indexer.lineSkipped fun _ => none)).length
        = k := by
    intro k
    induction k with
    | zero => rfl
    | succ j ih => simp [List.replicate_succ, List.filter_cons, hskip, ih]
  have h := indexFile_stops_at_ceiling (fun _ => none) "p" "f.jsonl"
    (List.replicate 5001 "x")
    (by simp only [List.length_replicate, Indexer.maxLinesPerFile]; omega)
  refine ⟨?_, by simp only [List.length_replicate]; omega, hskip⟩
  rw [h.2]
  rw [show (List.replicate 5001 "x").take Indexer.maxLinesPerFile
      = List.replicate 5000 "x" by
    rw [List.take_replicate]
    norm_num [Indexer.maxLinesPerFile]]
  exact hcount 5000

/-! ## C8 — path codec round trip -/

/-- C8: for every path `p` that does not contain the reserved
placeholder character `'-'`,
`decodeProjectPath (encodeProjectPath p) = p`. -/
theorem decode_encode_roundtrip (p : String) (h : '-' ∉ p.data) :
    Utils.decodeProjectPath (Utils.encodeProjectPath p) = p := by
  unfold Utils.decodeProjectPath Utils.encodeProjectPath mapChars
  apply String.ext
  simp only [List.map_map]
  conv_rhs => rw [← List.map_id p.data]
  apply List.map_congr_left
  intro c hc
  by_cases hcs : c = '/'
  · subst hcs
    simp
  · have hcd : c ≠ '-' := fun hc2 => h (hc2 ▸ hc)
    simp [Function.comp, hcs, hcd]

/-- Witness for C8 at the concrete path `"src/utils.ts"`. -/
theorem decode_encode_roundtrip_witness :
    '-' ∉ "src/utils.ts".data ∧
      Utils.decodeProjectPath (Utils.encodeProjectPath "src/utils.ts")
        = "src/utils.ts" :=
  ⟨by decide, decode_encode_roundtrip "src/utils.ts" (by decide)⟩

/-! ## C10 — total content extraction -/

/-- C10: `extractContentFromMessage` is total (a Lean function — it
cannot throw) and returns exactly the string described by the claim for
every shape of message body. -/
theorem extractContent_matches_spec (message : MessageBody) :
    Utils.extractContentFromMessage message
      = extractContentFromMessageSpec message := by
  cases message with
  | mk content =>
    cases content with
    | str s => rfl
    | null => rfl
    | arr items =>
      simp only [Utils.extractContentFromMessage, extractContentFromMessageSpec]
      have h : items.map Utils.renderItem = items.map specBlockRendering :=
        List.map_congr_left fun i _ => by cases i <;> rfl
      rw [h]

/-! ## C4 — non-negativity of the relevance scorers -/

/-- C4: both relevance scorers (`src/utils.ts:73` and
`src/search.ts:609`) are total and return a score `≥ 0` for every
message — including messages with missing `message`, `type`, `cwd` or
`timestamp` fields — and every query. -/
theorem relevance_score_nonneg (message : RawMessage) (query : String)
    (projectPath : Option String) (now : Int) :
    0 ≤ Utils.calculateRelevanceScore message query projectPath ∧
      0 ≤ SearchEngine.calculateRelevanceScore message query now := by
  constructor
  · unfold Utils.calculateRelevanceScore
    repeat' apply add_nonneg
    all_goals positivity
  · simp only [SearchEngine.calculateRelevanceScore]
    split
    · norm_num
    · repeat' apply add_nonneg
      all_goals positivity

/-! ## C3 — total public operations that degrade to empty results -/

/-- C3: every public operation of the engine is a total function of
the environment (no exception propagates: each `catch` absorbs its
oracle's failures), `searchConversations` always carries its
diagnostic counters (`searchQuery` is echoed and the single-instant
clock gives `executionTime = 0`), and the two total-unavailability
modes degrade to empty results: an absent projects root makes all six
operations return empty, and an always-rejecting file parser does the
same (from an empty cache). -/
theorem public_ops_degrade_to_empty (env : Env) (cache : SearchEngine.Cache)
    (query fp ep : String) (pf tfr tn : Option String) (limit : Nat) :
    ((SearchEngine.searchConversations env cache query pf tfr limit).1.searchQuery
        = query
      ∧ (SearchEngine.searchConversations env cache query pf tfr limit).1.executionTime
        = 0)
    ∧ (env.readdirRoot = .error () →
      (SearchEngine.searchConversations env cache query pf tfr limit).1.messages = []
        ∧ (SearchEngine.searchConversations env cache query pf tfr limit).1.totalResults
          = 0
        ∧ SearchEngine.findFileContext env fp limit = []
        ∧ SearchEngine.findSimilarQueries env query limit = []
        ∧ SearchEngine.getErrorSolutions env ep limit = []
        ∧ SearchEngine.getToolPatterns env tn limit = []
        ∧ SearchEngine.getRecentSessions env limit = [])
    ∧ ((∀ d f q2 tfil, env.parseJsonlFile d f q2 tfil = .error ()) →
      (SearchEngine.searchConversations env [] query pf tfr limit).1.messages = []
        ∧ (SearchEngine.searchConversations env [] query pf tfr limit).1.totalResults
          = 0
        ∧ SearchEngine.findFileContext env fp limit = []
        ∧ SearchEngine.findSimilarQueries env query limit = []
        ∧ SearchEngine.getErrorSolutions env ep limit = []
        ∧ SearchEngine.getToolPatterns env tn limit = []
        ∧ SearchEngine.getRecentSessions env limit = []) := by
  refine ⟨?_, ?_, ?_⟩
  · simp only [SearchEngine.searchConversations, SearchEngine.performOptimizedSearch]
    split <;> exact ⟨rfl, rfl⟩
  · intro h
    have hs := SearchEngine.searchConversations_root_error env cache query pf tfr
      limit h
    exact ⟨hs.1, hs.2,
      SearchEngine.findFileContext_root_error env fp limit h,
      SearchEngine.findSimilarQueries_root_error env query limit h,
      SearchEngine.getErrorSolutions_root_error env ep limit h,
      SearchEngine.getToolPatterns_root_error env tn limit h,
      SearchEngine.getRecentSessions_root_error env limit h⟩
  · intro hfail
    have hs := SearchEngine.searchConversations_parse_fail env query pf tfr limit
      hfail
    exact ⟨hs.1, hs.2,
      SearchEngine.findFileContext_parse_fail env hfail fp limit,
      SearchEngine.findSimilarQueries_parse_fail env hfail query limit,
      SearchEngine.getErrorSolutions_parse_fail env hfail ep limit,
      SearchEngine.getToolPatterns_parse_fail env hfail tn limit,
      SearchEngine.getRecentSessions_parse_fail env hfail limit⟩

/-- Witness for C3 on the concrete environment with absent root and
rejecting parser: both degradation hypotheses are discharged by
`rfl`. -/
theorem public_ops_degrade_to_empty_witness :
    (SearchEngine.searchConversations c3env [] "docker build" none none 5).1.messages
        = []
      ∧ (SearchEngine.searchConversations c3env [] "docker build" none none 5).1.totalResults
        = 0
      ∧ (SearchEngine.searchConversations c3env [] "docker build" none none 5).1.searchQuery
        = "docker build"
      ∧ SearchEngine.findFileContext c3env "app.ts" 5 = []
      ∧ SearchEngine.findSimilarQueries c3env "docker build" 5 = []
      ∧ SearchEngine.getErrorSolutions c3env "enoent" 5 = []
      ∧ SearchEngine.getToolPatterns c3env none 5 = []
      ∧ SearchEngine.getRecentSessions c3env 5 = [] := by
  have h := public_ops_degrade_to_empty c3env [] "docker build" "app.ts" "enoent"
    none none none 5
  have hr := h.2.1 rfl
  have hp := h.2.2 fun d f q2 tfil => rfl
  exact ⟨hr.1, hr.2.1, h.1.1, hr.2.2.1, hr.2.2.2.1, hp.2.2.2.2.1,
    hp.2.2.2.2.2.1, hp.2.2.2.2.2.2⟩

end ClaudeHistorian
